import Mathlib

/-!
Verification development for the Researcher's Toolkit ingestion engine
(`src/rtk.py`).  The Python source is shallowly embedded below: pure
transformations become Lean functions, the Neo4j graph store becomes an
explicit `GraphState` threaded through each Cypher query, and the
Semantic Scholar HTTP API becomes an oracle mapping offsets to page
responses.
-/

namespace RTK

/-- Character-wise embedding of Python's `html.escape` with the default
`quote=True`, as used on every free-text field in `Paper.__init__`.
Python performs five sequential `str.replace` passes (ampersand first);
since none of the replacement strings contains a character that a later
pass rewrites except the ampersands it itself introduces, the sequential
replacement is extensionally the character-wise map below. -/
def escChar (c : Char) : String :=
  if c = Char.ofNat 38 then "&amp;"
  else if c = Char.ofNat 60 then "&lt;"
  else if c = Char.ofNat 62 then "&gt;"
  else if c = Char.ofNat 34 then "&quot;"
  else if c = Char.ofNat 39 then "&#x27;"
  else String.singleton c

/-- `html.escape` over a whole string. -/
def htmlEscape (s : String) : String :=
  String.join (s.data.map escChar)

/-! ### SHA-1 (`hashlib.sha1(text.encode()).hexdigest()`)

`Paper.get_sha1_hash` UTF-8-encodes its argument and returns the
lowercase hex digest.  The implementation below follows FIPS 180-1 over
`Nat` bytes/words with explicit `% 2^32`. -/

/-- UTF-8 encoding of a single scalar value, as `str.encode()` produces. -/
def utf8Char (c : Char) : List Nat :=
  let n := c.toNat
  if n < 128 then [n]
  else if n < 2048 then [192 + n / 64, 128 + n % 64]
  else if n < 65536 then [224 + n / 4096, 128 + (n / 64) % 64, 128 + n % 64]
  else [240 + n / 262144, 128 + (n / 4096) % 64, 128 + (n / 64) % 64, 128 + n % 64]

/-- UTF-8 encoding of a string as a list of byte values. -/
def utf8Encode (s : String) : List Nat :=
  (s.data.map utf8Char).flatten

/-- Rotate a 32-bit word left by `k` bits. -/
def rotl (k x : Nat) : Nat :=
  (((x <<< k) % 4294967296) ||| (x >>> (32 - k)))

/-- The SHA-1 round function `f` (the argument words are below `2^32`,
so bitwise complement is `4294967295 - b`). -/
def sha1F (i b c d : Nat) : Nat :=
  if i < 20 then (b &&& c) ||| ((4294967295 - b) &&& d)
  else if i < 40 then b ^^^ c ^^^ d
  else if i < 60 then (b &&& c) ||| (b &&& d) ||| (c &&& d)
  else b ^^^ c ^^^ d

/-- The SHA-1 round constants. -/
def sha1K (i : Nat) : Nat :=
  if i < 20 then 1518500249
  else if i < 40 then 1859775393
  else if i < 60 then 2400959708
  else 3395469782

/-- Big-endian grouping of bytes into 32-bit words. -/
def toWords : List Nat → List Nat
  | b0 :: b1 :: b2 :: b3 :: rest =>
      (b0 * 16777216 + b1 * 65536 + b2 * 256 + b3) :: toWords rest
  | _ => []

/-- Message-schedule extension: `acc` holds the words produced so far in
reverse order; each step prepends
`rotl 1 (w[i-3] xor w[i-8] xor w[i-14] xor w[i-16])`. -/
def extendWords (acc : List Nat) : Nat → List Nat
  | 0 => acc.reverse
  | n + 1 =>
      extendWords
        (rotl 1 (acc.getD 2 0 ^^^ acc.getD 7 0 ^^^ acc.getD 13 0 ^^^ acc.getD 15 0) :: acc) n

/-- One SHA-1 compression round on the `(a, b, c, d, e)` state. -/
def sha1Round (st : Nat × Nat × Nat × Nat × Nat) (iw : Nat × Nat) :
    Nat × Nat × Nat × Nat × Nat :=
  let (a, b, c, d, e) := st
  let (i, w) := iw
  let t := (rotl 5 a + sha1F i b c d + e + sha1K i + w) % 4294967296
  (t, a, rotl 30 b, c, d)

/-- Process one 64-byte chunk, updating the five hash words. -/
def sha1Chunk (h : Nat × Nat × Nat × Nat × Nat) (chunk : List Nat) :
    Nat × Nat × Nat × Nat × Nat :=
  let ws := extendWords (toWords chunk).reverse 64
  let (h0, h1, h2, h3, h4) := h
  let (a, b, c, d, e) := ws.enum.foldl sha1Round h
  ((h0 + a) % 4294967296, (h1 + b) % 4294967296, (h2 + c) % 4294967296,
   (h3 + d) % 4294967296, (h4 + e) % 4294967296)

/-- Big-endian bytes of the 64-bit message length. -/
def lenBytes (n : Nat) : List Nat :=
  (List.range 8).map (fun i => (n >>> (56 - 8 * i)) &&& 255)

/-- SHA-1 padding: a `0x80` byte, zeros to 56 mod 64, then the bit length. -/
def sha1Pad (msg : List Nat) : List Nat :=
  msg ++ 128 :: List.replicate ((119 - msg.length % 64) % 64) 0 ++ lenBytes (8 * msg.length)

/-- Split into 64-byte chunks; the fuel equals the list length, which
suffices since every step consumes at least one element. -/
def chunks64Fuel : Nat → List Nat → List (List Nat)
  | 0, _ => []
  | _, [] => []
  | fuel + 1, l => l.take 64 :: chunks64Fuel fuel (l.drop 64)

/-- Split a (padded) byte list into 64-byte chunks. -/
def chunks64 (l : List Nat) : List (List Nat) :=
  chunks64Fuel l.length l

/-- One lowercase hexadecimal digit. -/
def hexNibble (n : Nat) : Char :=
  Char.ofNat (if n < 10 then 48 + n else 87 + n)

/-- Eight lowercase hex digits of a 32-bit word, most significant first. -/
def wordHex (w : Nat) : String :=
  String.mk ((List.range 8).map (fun i => hexNibble ((w >>> (28 - 4 * i)) &&& 15)))

/-- SHA-1 digest of a byte list, as a lowercase hex string. -/
def sha1Bytes (msg : List Nat) : String :=
  let (h0, h1, h2, h3, h4) :=
    (chunks64 (sha1Pad msg)).foldl sha1Chunk
      (1732584193, 4023233417, 2562383102, 271733878, 3285377520)
  wordHex h0 ++ wordHex h1 ++ wordHex h2 ++ wordHex h3 ++ wordHex h4

/-- Embedding of `Paper.get_sha1_hash`: SHA-1 hex digest of the UTF-8
encoding of the given text. -/
def sha1Hex (s : String) : String :=
  sha1Bytes (utf8Encode s)

/-! ### The canonical `Paper` entity and its normalizer

`Paper.__init__` consumes a raw Semantic Scholar JSON object.  A raw
record is embedded as a structure of optional fields; for every field
except `authors` the code treats "key absent" and "value null"
identically, so a single `Option` models both.  For `authors`,
`none` models an absent (or null) `authors` entry: the guard on line 75
of `src/rtk.py` then still defaults the primary author, but the
unconditional `paper_dict["authors"]` on line 82 (resp. `len(None)`)
raises, which the embedding records as `InitResult.raised`. -/

/-- A raw author sub-object.  `authorId`/`name` are `none` when the key
is absent or its value is null (the code checks both together). -/
structure RawAuthor where
  authorId : Option String
  name : Option String
deriving DecidableEq, Repr

/-- A raw paper record from the API.  The `tldr` field in the JSON is a
sub-object `{"text": ...}`; lines 121-124 use its text only when the
sub-object, its `text` key and the text value are all present and
non-null, so `tldr` here is that text when fully present and `none` in
every other case. -/
structure RawPaper where
  title : Option String
  authors : Option (List RawAuthor)
  paperId : Option String
  year : Option Int
  venue : Option String
  abstract : Option String
  tldr : Option String
  citationCount : Option Int
  referenceCount : Option Int
  url : Option String
deriving DecidableEq, Repr

/-- An element of `Paper.authors`: `{"id": ..., "name": ...}`. -/
structure AuthorEntry where
  id : String
  name : String
deriving DecidableEq, Repr

/-- The canonical `Paper` entity built by `Paper.__init__`. -/
structure Paper where
  title : String
  author : String
  authors : List AuthorEntry
  id : String
  year : Int
  venue : String
  abstract : String
  tldr : String
  citationCount : Int
  referenceCount : Int
  url : String
deriving DecidableEq, Repr

/-- Outcome of `Paper.__init__` on a raw record:
`rejected` is the early `return` for a missing/null title (the Python
object then has no attributes and any downstream use of `paper.id`
raises `AttributeError`); `raised` is an exception escaping the
constructor (`KeyError`/`TypeError` on the `authors` field, or a
missing/null `name` on the first author). -/
inductive InitResult where
  | rejected
  | raised
  | ok (p : Paper)
deriving DecidableEq, Repr

/-- The author list built by the loop on lines 81-96: an author with a
non-null `authorId` keeps it verbatim; otherwise a non-null `name` is
hashed (unescaped) for the id; otherwise the author is skipped.  The
stored name is the escaped `name`, defaulting to `"unknown"`. -/
def buildAuthors (l : List RawAuthor) : List AuthorEntry :=
  l.filterMap fun a =>
    match a.authorId with
    | some aid =>
        some ⟨aid, match a.name with
                   | some n => htmlEscape n
                   | none => "unknown"⟩
    | none =>
        match a.name with
        | some n => some ⟨sha1Hex n, htmlEscape n⟩
        | none => none

/-- Embedding of `Paper.__init__` (`src/rtk.py` lines 62-139). -/
def Paper.init (r : RawPaper) : InitResult :=
  match r.title with
  | none => .rejected
  | some t =>
    let title := htmlEscape t
    match r.authors with
    | none => .raised
    | some authors =>
      let primary : Option String :=
        match authors with
        | [] => some "unknown"
        | a :: _ =>
          match a.name with
          | none => none
          | some n => some (htmlEscape n)
      match primary with
      | none => .raised
      | some author =>
        .ok
          { title := title
            author := author
            authors := buildAuthors authors
            id :=
              match r.paperId with
              | some pid => pid
              | none => sha1Hex (title ++ author)
            year := r.year.getD 0
            venue := (r.venue.map htmlEscape).getD ""
            abstract := (r.abstract.map htmlEscape).getD ""
            tldr := (r.tldr.map htmlEscape).getD ""
            citationCount := r.citationCount.getD 0
            referenceCount := r.referenceCount.getD 0
            url := r.url.getD "" }

/-! ### The graph store

Each Cypher query issued through `driver.execute_query` is embedded as a
state transformer on `GraphState` returning the
`(nodes_created, relationships_created)` counters of its summary.
Nodes are keyed by their business keys (`Paper.PaperId`,
`Author.AuthorId`, `Venue.Name`); a merge-by-key either matches the
existing node or creates it, and a subsequent `SET` overwrites the
non-key properties. -/

/-- The non-key properties `add_paper_to_graph` sets on a `Paper` node
(lines 631-642). -/
structure PaperProps where
  title : String
  year : Int
  venue : String
  primaryAuthor : String
  url : String
  tldr : String
  abstract : String
  citationCount : Int
  referenceCount : Int
deriving DecidableEq, Repr

/-- The relationship types written by the engine.  `add_keywords`
defaults to `False` and no call site in the repository overrides it, so
the keyword branch never runs; `hasKeyword` is kept for the schema. -/
inductive RelType where
  | authoredBy
  | publishedIn
  | references
  | hasKeyword
deriving DecidableEq, Repr

/-- A directed relationship, identified (as `MERGE` does) by its type
and the keys of its two endpoints. -/
structure Rel where
  relType : RelType
  src : String
  tgt : String
deriving DecidableEq, Repr

/-- The graph database state: nodes by key, and the relationship set. -/
@[ext]
structure GraphState where
  papers : String → Option PaperProps
  authors : String → Option String
  venues : String → Bool
  rels : Rel → Bool

/-- `MERGE (p:Paper {PaperId: $paperId}) SET ...` (lines 631-655): match
or create the node by key, then overwrite all listed properties;
`nodes_created` is 1 exactly when the node did not exist. -/
def mergePaperNode (s : GraphState) (pid : String) (pr : PaperProps) :
    GraphState × Nat × Nat :=
  ({ s with papers := fun i => if i = pid then some pr else s.papers i },
   (if (s.papers pid).isSome then 0 else 1), 0)

/-- `MERGE (a:Author {AuthorId: $authorId}) SET a.Name = $name`
(lines 664-669). -/
def mergeAuthorNode (s : GraphState) (aid name : String) :
    GraphState × Nat × Nat :=
  ({ s with authors := fun i => if i = aid then some name else s.authors i },
   (if (s.authors aid).isSome then 0 else 1), 0)

/-- `MATCH (p:Paper ...) MATCH (a:Author ...) MERGE (p)-[:AUTHORED_BY]->(a)`
(lines 673-681): with a missing endpoint the match yields no row and the
query is a no-op; otherwise the relationship is created if absent. -/
def mergeAuthoredBy (s : GraphState) (pid aid : String) :
    GraphState × Nat × Nat :=
  if (s.papers pid).isSome && (s.authors aid).isSome then
    let r : Rel := ⟨.authoredBy, pid, aid⟩
    if s.rels r then (s, 0, 0)
    else ({ s with rels := fun x => if x = r then true else s.rels x }, 0, 1)
  else (s, 0, 0)

/-- `MERGE (v:Venue {Name: $name})` (lines 687-690): no `SET`, so an
existing node is left untouched. -/
def mergeVenueNode (s : GraphState) (name : String) : GraphState × Nat × Nat :=
  if s.venues name then (s, 0, 0)
  else ({ s with venues := fun v => if v = name then true else s.venues v }, 1, 0)

/-- `MATCH (v:Venue ...) MATCH (p:Paper ...) MERGE (p)-[:PUBLISHED_IN]->(v)`
(lines 694-699). -/
def mergePublishedIn (s : GraphState) (pid name : String) :
    GraphState × Nat × Nat :=
  if s.venues name && (s.papers pid).isSome then
    let r : Rel := ⟨.publishedIn, pid, name⟩
    if s.rels r then (s, 0, 0)
    else ({ s with rels := fun x => if x = r then true else s.rels x }, 0, 1)
  else (s, 0, 0)

/-- `MATCH (p:Paper {PaperId: $a}) MATCH (r:Paper {PaperId: $b})
MERGE (p)-[:REFERENCES]->(r)`: the REFERENCES edge upsert used by
`add_references` in both directions (lines 591-596 store the edge
`refId → paperId`, lines 605-610 the edge `paperId → refId`; both are
this query with the endpoint keys in the corresponding order). -/
def mergeReferences (s : GraphState) (src tgt : String) :
    GraphState × Nat × Nat :=
  if (s.papers src).isSome && (s.papers tgt).isSome then
    let r : Rel := ⟨.references, src, tgt⟩
    if s.rels r then (s, 0, 0)
    else ({ s with rels := fun x => if x = r then true else s.rels x }, 0, 1)
  else (s, 0, 0)

/-- The properties `add_paper_to_graph` passes for the `SET` clauses. -/
def paperPropsOf (p : Paper) : PaperProps :=
  ⟨p.title, p.year, p.venue, p.author, p.url, p.tldr, p.abstract,
   p.citationCount, p.referenceCount⟩

/-- The author loop of `add_paper_to_graph` (lines 660-683): for each
author, merge the `Author` node and then the `AUTHORED_BY` edge,
accumulating the creation counters. -/
def addAuthorsLoop (pid : String) (s : GraphState) :
    List AuthorEntry → GraphState × Nat × Nat
  | [] => (s, 0, 0)
  | a :: rest =>
    let r1 := mergeAuthorNode s a.id a.name
    let r2 := mergeAuthoredBy r1.1 pid a.id
    let r3 := addAuthorsLoop pid r2.1 rest
    (r3.1, r1.2.1 + r2.2.1 + r3.2.1, r1.2.2 + r2.2.2 + r3.2.2)

/-- The venue block of `add_paper_to_graph` (lines 685-701), guarded by
`paper.venue != ""`. -/
def addVenuePart (s : GraphState) (p : Paper) : GraphState × Nat × Nat :=
  if p.venue = "" then (s, 0, 0)
  else
    let r1 := mergeVenueNode s p.venue
    let r2 := mergePublishedIn r1.1 p.id p.venue
    (r2.1, r1.2.1 + r2.2.1, r1.2.2 + r2.2.2)

/-- Embedding of `add_paper_to_graph` (lines 616-726) with the default
`add_keywords=False`, which every call site in the repository uses:
merge the `Paper` node and set its properties, run the author loop, then
the venue block.  Returns the final state together with the accumulated
`(num_nodes, num_relationships)` counters the function tracks. -/
def add_paper_to_graph (s : GraphState) (p : Paper) : GraphState × Nat × Nat :=
  let r1 := mergePaperNode s p.id (paperPropsOf p)
  let r2 := addAuthorsLoop p.id r1.1 p.authors
  let r3 := addVenuePart r2.1 p
  (r3.1, r1.2.1 + r2.2.1 + r3.2.1, r1.2.2 + r2.2.2 + r3.2.2)

/-! ### The paginated fetcher

The `while (1)` loop of `add_references` (lines 556-582) issues GET
requests at increasing offsets.  The HTTP layer is embedded as an oracle
from offsets to responses.  A JSON response is reduced to the fields the
loop inspects: the status code, the `data` array, and whether a `next`
key is present.  The loop body, in source order: on a non-200 status it
breaks *without* appending the page's data; otherwise it appends the
data, breaks if `next` is absent, and else advances the offset by the
page size (the literal 100 in the source, kept as the parameter `ps`).
The loop has no bound in Python, so the embedding takes fuel; every
theorem that needs completeness carries a fuel-sufficiency
hypothesis. -/

/-- The parts of a paginated JSON response the loop inspects. -/
structure PageResponse (α : Type) where
  status : Nat
  data : List α
  hasNext : Bool
deriving DecidableEq, Repr

/-- The pagination loop.  Returns the concatenated records together with
the list of offsets actually requested. -/
def fetch_pages {α : Type} (api : Nat → PageResponse α) (ps : Nat) :
    Nat → Nat → List α × List Nat
  | 0, _ => ([], [])
  | fuel + 1, offset =>
    let r := api offset
    if r.status ≠ 200 then ([], [offset])
    else if r.hasNext then
      let rest := fetch_pages api ps fuel (offset + ps)
      (r.data ++ rest.1, offset :: rest.2)
    else (r.data, [offset])

/-- A well-behaved provider holding `records`: a request at `offset`
returns the slice `[offset, offset+ps)` with the next-page indicator
present exactly when records remain beyond the slice. -/
def honestApi {α : Type} (records : List α) (ps : Nat) : Nat → PageResponse α :=
  fun offset =>
    ⟨200, (records.drop offset).take ps, decide (offset + ps < records.length)⟩

/-- The request offsets predicted for a complete pagination over `len`
records with page size `ps` starting at `offset` (fuel-indexed exactly
like `fetch_pages`). -/
def offsetsSpec (ps len : Nat) : Nat → Nat → List Nat
  | 0, _ => []
  | fuel + 1, offset =>
    if offset + ps < len then offset :: offsetsSpec ps len fuel (offset + ps)
    else [offset]

/-! ### The reference expander (`add_references`, lines 540-614)

For each of the two operations (`citations` then `references`) the
function first drains the paginated endpoint and then processes every
collected item: it builds a `Paper` from the wrapped record
(`reference["citingPaper"]` resp. `reference["citedPaper"]` — the
oracle's `data` lists are those unwrapped objects), upserts it with
`add_paper_to_graph`, and merges the directed REFERENCES edge; only the
edge query's counters are accumulated (the upsert's counters are local
to `add_paper_to_graph`).  A record whose constructor raises, or whose
constructor was rejected for a missing title (so that `paper.id` raises
`AttributeError` inside `add_paper_to_graph`), aborts the whole call
with an uncaught Python exception; the embedding records this in `err`
and, as in Python, performs no write for that record while keeping all
earlier writes. -/

/-- The two fetch operations of `add_references`. -/
inductive Operation where
  | citations
  | references
deriving DecidableEq, Repr

/-- A Python exception escaping the processing of one record. -/
inductive PyError where
  | attributeError
  | keyError
deriving DecidableEq, Repr

/-- Result of a run: final graph state, accumulated
`(num_nodes, num_relationships)`, and the escaped exception if any. -/
structure RunOut where
  state : GraphState
  nodes : Nat
  relsCreated : Nat
  err : Option PyError

/-- The REFERENCES edge stored for one processed record: a citing
neighbor `refId` yields `MERGE (p)<-[:REFERENCES]-(r)`, i.e. the edge
`refId → origin`; a cited neighbor yields `origin → refId`. -/
def edgeQuery (op : Operation) (s : GraphState) (origin refId : String) :
    GraphState × Nat × Nat :=
  match op with
  | .citations => mergeReferences s refId origin
  | .references => mergeReferences s origin refId

/-- Processing of a single collected record (lines 585-612, one
iteration): construct the `Paper`, upsert it, merge the edge. -/
def processOne (origin : String) (op : Operation) (s : GraphState)
    (raw : RawPaper) : Except PyError (GraphState × Nat × Nat) :=
  match Paper.init raw with
  | .rejected => .error .attributeError
  | .raised => .error .keyError
  | .ok p =>
    let r1 := add_paper_to_graph s p
    let r2 := edgeQuery op r1.1 origin p.id
    .ok (r2.1, r2.2.1, r2.2.2)

/-- The processing loop over the collected records of one operation; an
exception stops the loop, keeping the writes made so far. -/
def processList (origin : String) (op : Operation) (s : GraphState) :
    List RawPaper → RunOut
  | [] => ⟨s, 0, 0, none⟩
  | raw :: rest =>
    match processOne origin op s raw with
    | .error e => ⟨s, 0, 0, some e⟩
    | .ok r =>
      let out := processList origin op r.1 rest
      ⟨out.state, r.2.1 + out.nodes, r.2.2 + out.relsCreated, out.err⟩

/-- Embedding of `add_references` (lines 540-614): fetch and process the
citations (an exception there propagates at once, skipping the second
operation), then fetch and process the references.  The page size is
the source's literal 100. -/
def add_references (api : Operation → Nat → PageResponse RawPaper)
    (paper_id : String) (s : GraphState) (fuel : Nat) : RunOut :=
  let cit := fetch_pages (api .citations) 100 fuel 0
  let o1 := processList paper_id .citations s cit.1
  match o1.err with
  | some _ => o1
  | none =>
    let ref := fetch_pages (api .references) 100 fuel 0
    let o2 := processList paper_id .references o1.state ref.1
    ⟨o2.state, o1.nodes + o2.nodes, o1.relsCreated + o2.relsCreated, o2.err⟩

/-! ### The bulk refresh scheduler
(`search_semantic_refresh_references`, lines 516-538)

The function reads every `Paper` node's `PaperId` (one row per node, and
node keys are unique under merge-by-key, so the list has no duplicates),
then runs `add_references` for each id via
`ProcessPoolExecutor(10)`/`executor.map`.  `map` submits one task per
id regardless of the pool size; the pool size only controls how many
run in parallel.  The consuming `list(tqdm(...))` counts one completed
task per consumed result and re-raises the first task exception it
meets.  The embedding takes the discovered id list as a parameter and
folds the tasks in order, which agrees with the pool on every observable
used below (task writes are against the one shared database, and the
per-id inputs are disjoint). -/

/-- The task loop: returns the final state, the completed-task count,
and the first escaped exception if any. -/
def batchLoop (api : String → Operation → Nat → PageResponse RawPaper)
    (fuel : Nat) (s : GraphState) : List String → GraphState × Nat × Option PyError
  | [] => (s, 0, none)
  | pid :: rest =>
    let out := add_references (api pid) pid s fuel
    match out.err with
    | some e => (out.state, 0, some e)
    | none =>
      let r := batchLoop api fuel out.state rest
      (r.1, r.2.1 + 1, r.2.2)

/-- Embedding of `search_semantic_refresh_references`: the pool size
(10 in the source) is dispatch-irrelevant, as `executor.map` receives
the full id list either way. -/
def search_semantic_refresh_references (poolSize : Nat)
    (api : String → Operation → Nat → PageResponse RawPaper) (fuel : Nat)
    (s : GraphState) (ids : List String) : GraphState × Nat × Option PyError :=
  let _ := poolSize
  batchLoop api fuel s ids

/-! ### The retry decorator
(`@on_exception(expo, RateLimitException, max_tries=8)`, lines 540 and 616)

`backoff.on_exception` calls the wrapped function up to `max_tries`
times in total, sleeping between tries for a duration drawn from the
`expo` generator (values `2^0, 2^1, 2^2, ...`, jittered); any
`RateLimitException` raised on the last permitted try is re-raised to
the caller.  Attempt outcomes are given by an oracle: `none` models a
`RateLimitException` from the rate limiter, `some a` a normal return. -/

/-- The retry combinator: returns the final outcome, the number of calls
made, and the backoff series consumed (the `expo` values, before
jitter). -/
def backoffRetry {α : Type} (f : Nat → Option α) :
    Nat → Nat → Option α × Nat × List Nat
  | 0, _ => (none, 0, [])
  | budget + 1, i =>
    match f i with
    | some a => (some a, 1, [])
    | none =>
      if budget = 0 then (none, 1, [])
      else
        let r := backoffRetry f budget (i + 1)
        (r.1, r.2.1 + 1, 2 ^ i :: r.2.2)

/-- The decorator as applied in the source: `max_tries=8`. -/
def on_exception_expo {α : Type} (f : Nat → Option α) : Option α × Nat × List Nat :=
  backoffRetry f 8 0

/-! ### The rate limiter (`@limits(calls=5000, period=60)`, lines 541 and 617)

`ratelimit.limits` keeps `num_calls`/`last_reset` on the decorator
instance: on each call it resets the counter when the 60-second period
has elapsed, increments it, and raises `RateLimitException` when the
counter exceeds 5000.  Each `ProcessPoolExecutor` worker is a separate
OS process that imports the module and builds its own decorator
instance, so each worker owns an independent copy of this state. -/

/-- The decorator instance state. -/
structure LimiterState where
  numCalls : Nat
  lastReset : Nat
deriving DecidableEq, Repr

/-- One guarded call at time `now`: reset when the period has elapsed,
increment, admit iff the counter stays within `maxCalls`. -/
def limiterCall (maxCalls period : Nat) (st : LimiterState) (now : Nat) :
    LimiterState × Bool :=
  let st1 := if period ≤ now - st.lastReset then ⟨0, now⟩ else st
  (⟨st1.numCalls + 1, st1.lastReset⟩, decide (st1.numCalls + 1 ≤ maxCalls))

/-- Run a sequence of guarded calls, counting the admitted ones. -/
def runCalls (maxCalls period : Nat) (st : LimiterState) :
    List Nat → LimiterState × Nat
  | [] => (st, 0)
  | t :: ts =>
    let c := limiterCall maxCalls period st t
    let r := runCalls maxCalls period c.1 ts
    (r.1, (if c.2 then 1 else 0) + r.2)

/-- Aggregate admitted calls over a worker pool: one call-time schedule
per worker, each worker starting from its own fresh decorator state
(its process imported the module at time 0), with the source's
`calls=5000, period=60`. -/
def poolAdmitted (schedules : List (List Nat)) : Nat :=
  (schedules.map fun ts => (runCalls 5000 60 ⟨0, 0⟩ ts).2).sum

/-! ### Proof infrastructure: fold characterizations of the write
sequences performed by the upsert functions. -/

/-- One `SET`-style update of the author-name map. -/
def updName (f : String → Option String) (a : AuthorEntry) :
    String → Option String :=
  fun i => if i = a.id then some a.name else f i

/-- The author-name map after a sequence of author node merges. -/
def applyNames (f : String → Option String) :
    List AuthorEntry → String → Option String
  | [] => f
  | a :: rest => applyNames (updName f a) rest

/-- The last name assigned to key `k` by a write sequence, starting from
accumulator `acc`. -/
def lastAssign (k : String) : List AuthorEntry → Option String → Option String
  | [], acc => acc
  | a :: rest, acc => lastAssign k rest (if k = a.id then some a.name else acc)

/-- Mark one relationship present. -/
def setRel (g : Rel → Bool) (r : Rel) : Rel → Bool :=
  fun x => if x = r then true else g x

/-- The relationship set after a sequence of edge merges. -/
def applyRels (g : Rel → Bool) : List Rel → Rel → Bool
  | [] => g
  | r :: rest => applyRels (setRel g r) rest

/-- The AUTHORED_BY edges written by the author loop. -/
def authorEdges (pid : String) (l : List AuthorEntry) : List Rel :=
  l.map fun a => ⟨.authoredBy, pid, a.id⟩

/-- Whether a raw record normalizes to a `Paper` (no rejection, no
exception). -/
def initOk (r : RawPaper) : Bool :=
  match Paper.init r with
  | .ok _ => true
  | _ => false

/-- The REFERENCES edge `add_references` merges when processing one
record of the given operation. -/
def edgeRel (op : Operation) (origin refId : String) : Rel :=
  match op with
  | .citations => ⟨.references, refId, origin⟩
  | .references => ⟨.references, origin, refId⟩

/-- All records fetched for both operations of an `add_references` call
normalize successfully (so no Python exception can escape the
processing loops). -/
abbrev pagesOk (api : Operation → Nat → PageResponse RawPaper) (fuel : Nat) : Prop :=
  (∀ raw ∈ (fetch_pages (api .citations) 100 fuel 0).1, initOk raw = true) ∧
  (∀ raw ∈ (fetch_pages (api .references) 100 fuel 0).1, initOk raw = true)

/-! ### Concrete example inputs for the witness theorems. -/

/-- A raw record with provider id, one author, and some optional fields. -/
def c1raw : RawPaper :=
  ⟨some "T", some [⟨some "a1", some "Ada"⟩], some "PID", some 2020, some "V",
   none, none, some 3, some 4, some "u"⟩

/-- The `Paper` that `c1raw` normalizes to. -/
def c1paper : Paper :=
  ⟨"T", "Ada", [⟨"a1", "Ada"⟩], "PID", 2020, "V", "", "", 3, 4, "u"⟩

/-- Example node properties. -/
def exProps : PaperProps := ⟨"t", 2000, "", "unknown", "", "", "", 0, 0⟩

/-- A graph already holding papers `A` and `B`. -/
def exState : GraphState :=
  ⟨fun i => if i = "A" ∨ i = "B" then some exProps else none,
   fun _ => none, fun _ => false, fun _ => false⟩

/-- An example paper entity. -/
def exPaper : Paper :=
  ⟨"t", "Ada", [⟨"a1", "Ada"⟩], "A", 2020, "V", "", "", 0, 0, ""⟩

/-- The empty graph. -/
def emptyState : GraphState :=
  ⟨fun _ => none, fun _ => none, fun _ => false, fun _ => false⟩

/-- A raw citing neighbor with provider id `B`. -/
def c3rawB : RawPaper :=
  ⟨some "B", some [], some "B", none, none, none, none, none, none, none⟩

/-- A raw cited neighbor with provider id `D`. -/
def c3rawD : RawPaper :=
  ⟨some "D", some [], some "D", none, none, none, none, none, none, none⟩

/-- The `Paper` that `c3rawB` normalizes to. -/
def c3paperB : Paper := ⟨"B", "unknown", [], "B", 0, "", "", "", 0, 0, ""⟩

/-- The `Paper` that `c3rawD` normalizes to. -/
def c3paperD : Paper := ⟨"D", "unknown", [], "D", 0, "", "", "", 0, 0, ""⟩

/-- An API whose citations endpoint reports `B` and whose references
endpoint reports `D`, each in a single page. -/
def c3api : Operation → Nat → PageResponse RawPaper := fun op _ =>
  match op with
  | .citations => ⟨200, [c3rawB], false⟩
  | .references => ⟨200, [c3rawD], false⟩

/-- A graph holding only the origin paper `A`. -/
def c3state : GraphState :=
  ⟨fun i => if i = "A" then some exProps else none,
   fun _ => none, fun _ => false, fun _ => false⟩

/-- A raw record with no usable title. -/
def c4raw : RawPaper :=
  ⟨none, some [], some "X", none, none, none, none, none, none, none⟩

/-- A raw neighbor used in the C6 scenario. -/
def c6rawB : RawPaper :=
  ⟨some "B6", some [], some "B6", none, none, none, none, none, none, none⟩

/-- An API whose citations endpoint returns one good page that announces
a next page, and then rejects the second request with HTTP 500. -/
def c6api : Operation → Nat → PageResponse RawPaper := fun op off =>
  match op with
  | .citations => if off = 0 then ⟨200, [c6rawB], true⟩ else ⟨500, [], false⟩
  | .references => ⟨200, [], false⟩

/-- A graph holding only the origin paper `A6`. -/
def c6state : GraphState :=
  ⟨fun i => if i = "A6" then some exProps else none,
   fun _ => none, fun _ => false, fun _ => false⟩

/-- A raw record with a usable title but no `authors` key: line 75 of the
source defaults the primary author, but line 82 (`paper_dict["authors"]`)
raises `KeyError`. -/
def c7raw : RawPaper :=
  ⟨some "Attention", none, some "X7", none, none, none, none, none, none, none⟩

/-- A raw record lacking every optional field (with an empty author
list), exercising the default paths. -/
def c7defaults : RawPaper :=
  ⟨some "T7", some [], some "P7", none, none, none, none, none, none, none⟩

/-- A per-paper API for the bulk-refresh scenario: paper `P2` suffers a
permanent HTTP 500 on every request, the others have one citing
neighbor. -/
def c8api : String → Operation → Nat → PageResponse RawPaper := fun pid op _ =>
  if pid = "P2" then ⟨500, [], false⟩
  else
    match op with
    | .citations => ⟨200, [c3rawB], false⟩
    | .references => ⟨200, [], false⟩

/-- A graph holding the three papers `P1`, `P2`, `P3`. -/
def c8state : GraphState :=
  ⟨fun i => if i = "P1" ∨ i = "P2" ∨ i = "P3" then some exProps else none,
   fun _ => none, fun _ => false, fun _ => false⟩

/-! ## Lemmas -/

section ComponentLemmas

variable {s : GraphState}

theorem mergePaperNode_papers (pid : String) (pr : PaperProps) :
    (mergePaperNode s pid pr).1.papers =
      fun i => if i = pid then some pr else s.papers i := rfl

theorem mergePaperNode_authors (pid : String) (pr : PaperProps) :
    (mergePaperNode s pid pr).1.authors = s.authors := rfl

theorem mergePaperNode_venues (pid : String) (pr : PaperProps) :
    (mergePaperNode s pid pr).1.venues = s.venues := rfl

theorem mergePaperNode_rels (pid : String) (pr : PaperProps) :
    (mergePaperNode s pid pr).1.rels = s.rels := rfl

theorem mergeAuthorNode_papers (aid name : String) :
    (mergeAuthorNode s aid name).1.papers = s.papers := rfl

theorem mergeAuthorNode_authors (aid name : String) :
    (mergeAuthorNode s aid name).1.authors =
      updName s.authors ⟨aid, name⟩ := rfl

theorem mergeAuthorNode_venues (aid name : String) :
    (mergeAuthorNode s aid name).1.venues = s.venues := rfl

theorem mergeAuthorNode_rels (aid name : String) :
    (mergeAuthorNode s aid name).1.rels = s.rels := rfl

theorem mergeAuthoredBy_papers (pid aid : String) :
    (mergeAuthoredBy s pid aid).1.papers = s.papers := by
  simp only [mergeAuthoredBy]
  split
  · split <;> rfl
  · rfl

theorem mergeAuthoredBy_authors (pid aid : String) :
    (mergeAuthoredBy s pid aid).1.authors = s.authors := by
  simp only [mergeAuthoredBy]
  split
  · split <;> rfl
  · rfl

theorem mergeAuthoredBy_venues (pid aid : String) :
    (mergeAuthoredBy s pid aid).1.venues = s.venues := by
  simp only [mergeAuthoredBy]
  split
  · split <;> rfl
  · rfl

theorem setRel_self_of_true {g : Rel → Bool} {r : Rel} (h : g r = true) :
    setRel g r = g := by
  funext x
  unfold setRel
  by_cases hx : x = r
  · subst hx; simp [h]
  · simp [hx]

theorem mergeAuthoredBy_rels (pid aid : String)
    (hp : (s.papers pid).isSome = true) (ha : (s.authors aid).isSome = true) :
    (mergeAuthoredBy s pid aid).1.rels =
      setRel s.rels ⟨.authoredBy, pid, aid⟩ := by
  simp only [mergeAuthoredBy]
  rw [if_pos (by rw [hp, ha]; rfl)]
  split
  · exact (setRel_self_of_true (by assumption)).symm
  · rfl

theorem mergeAuthoredBy_count (pid aid : String)
    (hp : (s.papers pid).isSome = true) (ha : (s.authors aid).isSome = true)
    (hr : s.rels ⟨.authoredBy, pid, aid⟩ = true) :
    (mergeAuthoredBy s pid aid).2 = (0, 0) := by
  simp only [mergeAuthoredBy]
  rw [if_pos (by rw [hp, ha]; rfl), if_pos hr]

theorem mergeAuthoredBy_rels_mono (pid aid : String) {r : Rel}
    (h : s.rels r = true) : (mergeAuthoredBy s pid aid).1.rels r = true := by
  simp only [mergeAuthoredBy]
  split
  · split
    · exact h
    · show (if _ = _ then true else s.rels r) = true
      split <;> simp [h]
  · exact h

end ComponentLemmas

section FoldLemmas

theorem applyNames_apply (f : String → Option String) (l : List AuthorEntry)
    (k : String) : applyNames f l k = lastAssign k l (f k) := by
  induction l generalizing f with
  | nil => rfl
  | cons a rest ih =>
    show applyNames (updName f a) rest k = _
    rw [ih]
    rfl

theorem lastAssign_cases (k : String) (l : List AuthorEntry) :
    (∀ acc₁ acc₂, lastAssign k l acc₁ = lastAssign k l acc₂) ∨
      (∀ acc, lastAssign k l acc = acc) := by
  induction l with
  | nil => exact Or.inr fun _ => rfl
  | cons a rest ih =>
    rcases ih with h | h
    · exact Or.inl fun acc₁ acc₂ => h _ _
    · by_cases hk : k = a.id
      · refine Or.inl fun acc₁ acc₂ => ?_
        show lastAssign k rest _ = lastAssign k rest _
        rw [if_pos hk, if_pos hk]
      · refine Or.inr fun acc => ?_
        show lastAssign k rest _ = acc
        rw [if_neg hk, h]

theorem lastAssign_isSome_mono (k : String) (l : List AuthorEntry)
    {acc : Option String} (h : acc.isSome = true) :
    (lastAssign k l acc).isSome = true := by
  induction l generalizing acc with
  | nil => exact h
  | cons a rest ih =>
    show (lastAssign k rest _).isSome = true
    split
    · exact ih (by rfl)
    · exact ih h

theorem applyNames_absorb (f : String → Option String) (l : List AuthorEntry) :
    applyNames (applyNames f l) l = applyNames f l := by
  funext k
  rw [applyNames_apply, applyNames_apply]
  rcases lastAssign_cases k l with h | h
  · exact h _ _
  · rw [h, h]

theorem lastAssign_mem (a : AuthorEntry) :
    ∀ l : List AuthorEntry, a ∈ l → ∀ acc : Option String,
      (lastAssign a.id l acc).isSome = true
  | [], ha, _ => absurd ha (List.not_mem_nil a)
  | b :: rest, ha, acc => by
    rcases List.mem_cons.mp ha with h | h
    · show (lastAssign a.id rest _).isSome = true
      rw [h, if_pos rfl]
      exact lastAssign_isSome_mono _ _ rfl
    · exact lastAssign_mem a rest h _

theorem applyNames_mem_isSome (f : String → Option String)
    {l : List AuthorEntry} {a : AuthorEntry} (ha : a ∈ l) :
    (applyNames f l a.id).isSome = true := by
  rw [applyNames_apply]
  exact lastAssign_mem a l ha _

theorem updName_isSome_mono (f : String → Option String) (a : AuthorEntry)
    {k : String} (h : (f k).isSome = true) :
    (updName f a k).isSome = true := by
  unfold updName
  split
  · rfl
  · exact h

theorem applyRels_apply (g : Rel → Bool) (E : List Rel) (x : Rel) :
    applyRels g E x = (decide (x ∈ E) || g x) := by
  induction E generalizing g with
  | nil => simp [applyRels]
  | cons e rest ih =>
    show applyRels (setRel g e) rest x = _
    rw [ih]
    by_cases hx : x = e
    · subst hx
      simp [setRel, List.mem_cons]
    · simp [setRel, hx, List.mem_cons]

theorem applyRels_id {g : Rel → Bool} {E : List Rel}
    (h : ∀ e ∈ E, g e = true) : applyRels g E = g := by
  funext x
  rw [applyRels_apply]
  by_cases hx : x ∈ E
  · simp [hx, h x hx]
  · simp [hx]

theorem applyRels_mem (g : Rel → Bool) {E : List Rel} {e : Rel} (he : e ∈ E) :
    applyRels g E e = true := by
  rw [applyRels_apply]
  simp [he]

theorem applyRels_mono (g : Rel → Bool) (E : List Rel) {x : Rel}
    (hx : g x = true) : applyRels g E x = true := by
  rw [applyRels_apply]
  simp [hx]

end FoldLemmas

section AuthorLoopLemmas

theorem addAuthorsLoop_papers (pid : String) (s : GraphState)
    (l : List AuthorEntry) : (addAuthorsLoop pid s l).1.papers = s.papers := by
  induction l generalizing s with
  | nil => rfl
  | cons a rest ih =>
    show (addAuthorsLoop pid _ rest).1.papers = s.papers
    rw [ih, mergeAuthoredBy_papers, mergeAuthorNode_papers]

theorem addAuthorsLoop_venues (pid : String) (s : GraphState)
    (l : List AuthorEntry) : (addAuthorsLoop pid s l).1.venues = s.venues := by
  induction l generalizing s with
  | nil => rfl
  | cons a rest ih =>
    show (addAuthorsLoop pid _ rest).1.venues = s.venues
    rw [ih, mergeAuthoredBy_venues, mergeAuthorNode_venues]

theorem addAuthorsLoop_authors (pid : String) (s : GraphState)
    (l : List AuthorEntry) :
    (addAuthorsLoop pid s l).1.authors = applyNames s.authors l := by
  induction l generalizing s with
  | nil => rfl
  | cons a rest ih =>
    show (addAuthorsLoop pid _ rest).1.authors = _
    rw [ih, mergeAuthoredBy_authors, mergeAuthorNode_authors]
    rfl

theorem addAuthorsLoop_rels (pid : String) (s : GraphState)
    (l : List AuthorEntry) (hp : (s.papers pid).isSome = true) :
    (addAuthorsLoop pid s l).1.rels = applyRels s.rels (authorEdges pid l) := by
  induction l generalizing s with
  | nil => rfl
  | cons a rest ih =>
    show (addAuthorsLoop pid _ rest).1.rels = _
    have h1 : ((mergeAuthorNode s a.id a.name).1.papers pid).isSome = true := by
      rw [mergeAuthorNode_papers]; exact hp
    have h2 : ((mergeAuthorNode s a.id a.name).1.authors a.id).isSome = true := by
      rw [mergeAuthorNode_authors]
      unfold updName
      rw [if_pos rfl]
      rfl
    have h3 : ((mergeAuthoredBy (mergeAuthorNode s a.id a.name).1 pid
        a.id).1.papers pid).isSome = true := by
      rw [mergeAuthoredBy_papers]; exact h1
    rw [ih _ h3, mergeAuthoredBy_rels _ _ h1 h2, mergeAuthorNode_rels]
    rfl

theorem addAuthorsLoop_count (pid : String) (s : GraphState)
    (l : List AuthorEntry) (hp : (s.papers pid).isSome = true)
    (hn : ∀ a ∈ l, (s.authors a.id).isSome = true)
    (hr : ∀ a ∈ l, s.rels ⟨.authoredBy, pid, a.id⟩ = true) :
    (addAuthorsLoop pid s l).2 = (0, 0) := by
  induction l generalizing s with
  | nil => rfl
  | cons a rest ih =>
    have ha : (s.authors a.id).isSome = true := hn a (List.mem_cons_self a rest)
    have hra : s.rels ⟨.authoredBy, pid, a.id⟩ = true :=
      hr a (List.mem_cons_self a rest)
    have hc1 : (mergeAuthorNode s a.id a.name).2 = (0, 0) := by
      unfold mergeAuthorNode
      rw [if_pos ha]
    have h1 : ((mergeAuthorNode s a.id a.name).1.papers pid).isSome = true := by
      rw [mergeAuthorNode_papers]; exact hp
    have h2 : ((mergeAuthorNode s a.id a.name).1.authors a.id).isSome = true := by
      rw [mergeAuthorNode_authors]
      exact updName_isSome_mono _ _ ha
    have h2r : (mergeAuthorNode s a.id a.name).1.rels ⟨.authoredBy, pid, a.id⟩
        = true := by
      rw [mergeAuthorNode_rels]; exact hra
    have hc2 : (mergeAuthoredBy (mergeAuthorNode s a.id a.name).1 pid a.id).2
        = (0, 0) := mergeAuthoredBy_count _ _ h1 h2 h2r
    have h3 : ((mergeAuthoredBy (mergeAuthorNode s a.id a.name).1 pid
        a.id).1.papers pid).isSome = true := by
      rw [mergeAuthoredBy_papers]; exact h1
    have h4 : ∀ b ∈ rest,
        ((mergeAuthoredBy (mergeAuthorNode s a.id a.name).1 pid
          a.id).1.authors b.id).isSome = true := by
      intro b hb
      rw [mergeAuthoredBy_authors, mergeAuthorNode_authors]
      exact updName_isSome_mono _ _ (hn b (List.mem_cons_of_mem a hb))
    have h5 : ∀ b ∈ rest,
        (mergeAuthoredBy (mergeAuthorNode s a.id a.name).1 pid
          a.id).1.rels ⟨.authoredBy, pid, b.id⟩ = true := by
      intro b hb
      apply mergeAuthoredBy_rels_mono
      rw [mergeAuthorNode_rels]
      exact hr b (List.mem_cons_of_mem a hb)
    have hc3 := ih _ h3 h4 h5
    have e11 : (mergeAuthorNode s a.id a.name).2.1 = 0 := by rw [hc1]
    have e12 : (mergeAuthorNode s a.id a.name).2.2 = 0 := by rw [hc1]
    have e21 : (mergeAuthoredBy (mergeAuthorNode s a.id a.name).1 pid a.id).2.1
        = 0 := by rw [hc2]
    have e22 : (mergeAuthoredBy (mergeAuthorNode s a.id a.name).1 pid a.id).2.2
        = 0 := by rw [hc2]
    have e31 : (addAuthorsLoop pid (mergeAuthoredBy
        (mergeAuthorNode s a.id a.name).1 pid a.id).1 rest).2.1 = 0 := by
      rw [hc3]
    have e32 : (addAuthorsLoop pid (mergeAuthoredBy
        (mergeAuthorNode s a.id a.name).1 pid a.id).1 rest).2.2 = 0 := by
      rw [hc3]
    simp only [addAuthorsLoop]
    rw [e11, e12, e21, e22, e31, e32]

end AuthorLoopLemmas

section VenueLemmas

variable {s : GraphState}

theorem mergeVenueNode_papers (name : String) :
    (mergeVenueNode s name).1.papers = s.papers := by
  unfold mergeVenueNode; split <;> rfl

theorem mergeVenueNode_authors (name : String) :
    (mergeVenueNode s name).1.authors = s.authors := by
  unfold mergeVenueNode; split <;> rfl

theorem mergeVenueNode_rels (name : String) :
    (mergeVenueNode s name).1.rels = s.rels := by
  unfold mergeVenueNode; split <;> rfl

theorem mergeVenueNode_venues_self (name : String) :
    (mergeVenueNode s name).1.venues name = true := by
  unfold mergeVenueNode
  split
  · assumption
  · show (if name = name then true else s.venues name) = true
    rw [if_pos rfl]

theorem mergePublishedIn_papers (pid name : String) :
    (mergePublishedIn s pid name).1.papers = s.papers := by
  simp only [mergePublishedIn]
  split
  · split <;> rfl
  · rfl

theorem mergePublishedIn_authors (pid name : String) :
    (mergePublishedIn s pid name).1.authors = s.authors := by
  simp only [mergePublishedIn]
  split
  · split <;> rfl
  · rfl

theorem mergePublishedIn_venues (pid name : String) :
    (mergePublishedIn s pid name).1.venues = s.venues := by
  simp only [mergePublishedIn]
  split
  · split <;> rfl
  · rfl

theorem mergePublishedIn_rels_self (pid name : String)
    (hv : s.venues name = true) (hp : (s.papers pid).isSome = true) :
    (mergePublishedIn s pid name).1.rels ⟨.publishedIn, pid, name⟩ = true := by
  simp only [mergePublishedIn]
  rw [if_pos (by rw [hv, hp]; rfl)]
  split
  · assumption
  · show (if _ = _ then true else _) = true
    rw [if_pos rfl]

theorem mergePublishedIn_rels_mono (pid name : String) {r : Rel}
    (h : s.rels r = true) : (mergePublishedIn s pid name).1.rels r = true := by
  simp only [mergePublishedIn]
  split
  · split
    · exact h
    · show (if _ = _ then true else s.rels r) = true
      split <;> simp [h]
  · exact h

theorem addVenuePart_papers (p : Paper) :
    (addVenuePart s p).1.papers = s.papers := by
  unfold addVenuePart
  split
  · rfl
  · rw [mergePublishedIn_papers, mergeVenueNode_papers]

theorem addVenuePart_authors (p : Paper) :
    (addVenuePart s p).1.authors = s.authors := by
  unfold addVenuePart
  split
  · rfl
  · rw [mergePublishedIn_authors, mergeVenueNode_authors]

theorem addVenuePart_rels_mono (p : Paper) {r : Rel} (h : s.rels r = true) :
    (addVenuePart s p).1.rels r = true := by
  unfold addVenuePart
  split
  · exact h
  · apply mergePublishedIn_rels_mono
    rw [mergeVenueNode_rels]
    exact h

theorem addVenuePart_venues_self (p : Paper) (hv : p.venue ≠ "") :
    (addVenuePart s p).1.venues p.venue = true := by
  unfold addVenuePart
  rw [if_neg hv]
  rw [mergePublishedIn_venues]
  exact mergeVenueNode_venues_self p.venue

theorem addVenuePart_rel_self (p : Paper) (hv : p.venue ≠ "")
    (hp : (s.papers p.id).isSome = true) :
    (addVenuePart s p).1.rels ⟨.publishedIn, p.id, p.venue⟩ = true := by
  unfold addVenuePart
  rw [if_neg hv]
  apply mergePublishedIn_rels_self
  · exact mergeVenueNode_venues_self p.venue
  · rw [mergeVenueNode_papers]
    exact hp

theorem addVenuePart_fix (p : Paper)
    (h : p.venue ≠ "" →
      s.venues p.venue = true ∧ (s.papers p.id).isSome = true ∧
        s.rels ⟨.publishedIn, p.id, p.venue⟩ = true) :
    addVenuePart s p = (s, 0, 0) := by
  unfold addVenuePart
  split
  · rfl
  · rename_i hv
    rcases h hv with ⟨h1, h2, h3⟩
    have e1 : mergeVenueNode s p.venue = (s, 0, 0) := by
      unfold mergeVenueNode
      rw [if_pos h1]
    have e2 : mergePublishedIn s p.id p.venue = (s, 0, 0) := by
      simp only [mergePublishedIn]
      rw [if_pos (by rw [h1, h2]; rfl), if_pos h3]
    simp [e1, e2]

end VenueLemmas

section UpsertIdempotence

/-- The graph state after `add_paper_to_graph`, componentwise. -/
theorem add_paper_to_graph_papers (s : GraphState) (p : Paper) :
    (add_paper_to_graph s p).1.papers =
      fun i => if i = p.id then some (paperPropsOf p) else s.papers i := by
  simp only [add_paper_to_graph]
  rw [addVenuePart_papers, addAuthorsLoop_papers, mergePaperNode_papers]

theorem add_paper_to_graph_papers_self (s : GraphState) (p : Paper) :
    (add_paper_to_graph s p).1.papers p.id = some (paperPropsOf p) := by
  rw [add_paper_to_graph_papers]
  simp

theorem add_paper_to_graph_authors (s : GraphState) (p : Paper) :
    (add_paper_to_graph s p).1.authors = applyNames s.authors p.authors := by
  simp only [add_paper_to_graph]
  rw [addVenuePart_authors, addAuthorsLoop_authors, mergePaperNode_authors]

theorem add_paper_to_graph_author_rels (s : GraphState) (p : Paper)
    {a : AuthorEntry} (ha : a ∈ p.authors) :
    (add_paper_to_graph s p).1.rels ⟨.authoredBy, p.id, a.id⟩ = true := by
  simp only [add_paper_to_graph]
  apply addVenuePart_rels_mono
  rw [addAuthorsLoop_rels _ _ _ (by rw [mergePaperNode_papers]; simp)]
  apply applyRels_mem
  exact List.mem_map.mpr ⟨a, ha, rfl⟩

/-- C2 (paper half): upserting the same paper twice leaves the state of
the first upsert unchanged and the second call's counters are zero. -/
theorem add_paper_to_graph_idem (s : GraphState) (p : Paper) :
    add_paper_to_graph (add_paper_to_graph s p).1 p =
      ((add_paper_to_graph s p).1, 0, 0) := by
  set s1 := (add_paper_to_graph s p).1 with hs1
  have hpap : s1.papers p.id = some (paperPropsOf p) :=
    add_paper_to_graph_papers_self s p
  have hpapS : (s1.papers p.id).isSome = true := by rw [hpap]; rfl
  have hauth : s1.authors = applyNames s.authors p.authors :=
    add_paper_to_graph_authors s p
  have hA : mergePaperNode s1 p.id (paperPropsOf p) = (s1, 0, 0) := by
    unfold mergePaperNode
    rw [if_pos hpapS]
    have : (fun i => if i = p.id then some (paperPropsOf p) else s1.papers i)
        = s1.papers := by
      funext i
      by_cases hi : i = p.id
      · rw [if_pos hi, hi, hpap]
      · rw [if_neg hi]
    rw [this]
  have hB : addAuthorsLoop p.id s1 p.authors = (s1, 0, 0) := by
    have hns : applyNames s1.authors p.authors = s1.authors := by
      rw [hauth, applyNames_absorb]
    have hna : ∀ a ∈ p.authors, (s1.authors a.id).isSome = true := by
      intro a ha
      rw [hauth]
      exact applyNames_mem_isSome _ ha
    have hrl : ∀ a ∈ p.authors, s1.rels ⟨.authoredBy, p.id, a.id⟩ = true :=
      fun a ha => add_paper_to_graph_author_rels s p ha
    have hst : (addAuthorsLoop p.id s1 p.authors).1 = s1 := by
      apply GraphState.ext
      · rw [addAuthorsLoop_papers]
      · rw [addAuthorsLoop_authors, hns]
      · rw [addAuthorsLoop_venues]
      · rw [addAuthorsLoop_rels _ _ _ hpapS]
        apply applyRels_id
        intro e he
        rcases List.mem_map.mp he with ⟨a, ha, rfl⟩
        exact hrl a ha
    have hct : (addAuthorsLoop p.id s1 p.authors).2 = (0, 0) :=
      addAuthorsLoop_count _ _ _ hpapS hna hrl
    calc addAuthorsLoop p.id s1 p.authors
        = ((addAuthorsLoop p.id s1 p.authors).1,
           (addAuthorsLoop p.id s1 p.authors).2) := rfl
      _ = (s1, 0, 0) := by rw [hst, hct]
  have hC : addVenuePart s1 p = (s1, 0, 0) := by
    apply addVenuePart_fix
    intro hv
    refine ⟨?_, hpapS, ?_⟩
    · rw [hs1]
      simp only [add_paper_to_graph]
      rw [addVenuePart_venues_self _ hv]
    · rw [hs1]
      simp only [add_paper_to_graph]
      apply addVenuePart_rel_self _ hv
      rw [addAuthorsLoop_papers, mergePaperNode_papers]
      simp
  simp only [add_paper_to_graph, hA, hB, hC]

/-- C2 (edge half): merging a REFERENCES edge between two existing
papers twice leaves the state of the first merge unchanged, with zero
counters on the second call. -/
theorem mergeReferences_idem (s : GraphState) (a b : String)
    (ha : (s.papers a).isSome = true) (hb : (s.papers b).isSome = true) :
    mergeReferences (mergeReferences s a b).1 a b =
      ((mergeReferences s a b).1, 0, 0) := by
  have hcond : ((s.papers a).isSome && (s.papers b).isSome) = true := by
    rw [ha, hb]; rfl
  by_cases h : s.rels ⟨.references, a, b⟩ = true
  · have e1 : mergeReferences s a b = (s, 0, 0) := by
      simp only [mergeReferences]
      rw [if_pos hcond, if_pos h]
    rw [e1]
    exact e1
  · have e1 : mergeReferences s a b
        = ({ s with rels := setRel s.rels ⟨.references, a, b⟩ }, 0, 1) := by
      simp only [mergeReferences]
      rw [if_pos hcond, if_neg h]
      rfl
    rw [e1]
    show mergeReferences
      ({ s with rels := setRel s.rels ⟨.references, a, b⟩ }) a b = _
    have h2 : setRel s.rels ⟨.references, a, b⟩ ⟨.references, a, b⟩ = true := by
      unfold setRel
      rw [if_pos rfl]
    simp only [mergeReferences]
    rw [if_pos hcond, if_pos h2]

end UpsertIdempotence

section MonoLemmas

variable {s : GraphState}

theorem updName_papers_isSome_mono {f : String → Option String} {x : String}
    (h : (f x).isSome = true) (a : AuthorEntry) : ((updName f a) x).isSome = true := by
  unfold updName
  split
  · rfl
  · exact h

theorem mergeReferences_papers (a b : String) :
    (mergeReferences s a b).1.papers = s.papers := by
  simp only [mergeReferences]
  split
  · split <;> rfl
  · rfl

theorem mergeReferences_rels_mono (a b : String) {r : Rel}
    (h : s.rels r = true) : (mergeReferences s a b).1.rels r = true := by
  simp only [mergeReferences]
  split
  · split
    · exact h
    · show (if _ = _ then true else s.rels r) = true
      split <;> simp [h]
  · exact h

theorem mergeReferences_rel_self (a b : String)
    (ha : (s.papers a).isSome = true) (hb : (s.papers b).isSome = true) :
    (mergeReferences s a b).1.rels ⟨.references, a, b⟩ = true := by
  simp only [mergeReferences]
  rw [if_pos (by rw [ha, hb]; rfl)]
  split
  · assumption
  · show (if _ = _ then true else _) = true
    rw [if_pos rfl]

theorem edgeQuery_papers (op : Operation) (origin refId : String) :
    (edgeQuery op s origin refId).1.papers = s.papers := by
  cases op <;> simp only [edgeQuery] <;> rw [mergeReferences_papers]

theorem edgeQuery_rels_mono (op : Operation) (origin refId : String) {r : Rel}
    (h : s.rels r = true) : (edgeQuery op s origin refId).1.rels r = true := by
  cases op <;> simp only [edgeQuery] <;> exact mergeReferences_rels_mono _ _ h

theorem edgeQuery_rel_self (op : Operation) (origin refId : String)
    (ho : (s.papers origin).isSome = true) (hr : (s.papers refId).isSome = true) :
    (edgeQuery op s origin refId).1.rels (edgeRel op origin refId) = true := by
  cases op <;> simp only [edgeQuery, edgeRel]
  · exact mergeReferences_rel_self _ _ hr ho
  · exact mergeReferences_rel_self _ _ ho hr

theorem add_paper_to_graph_papers_mono (p : Paper) {x : String}
    (h : (s.papers x).isSome = true) :
    ((add_paper_to_graph s p).1.papers x).isSome = true := by
  rw [add_paper_to_graph_papers]
  by_cases hx : x = p.id
  · simp [hx]
  · simp [hx, h]

theorem addAuthorsLoop_rels_mono (pid : String) (l : List AuthorEntry)
    {r : Rel} (h : s.rels r = true) :
    (addAuthorsLoop pid s l).1.rels r = true := by
  induction l generalizing s with
  | nil => exact h
  | cons a rest ih =>
    show (addAuthorsLoop pid _ rest).1.rels r = true
    apply ih
    apply mergeAuthoredBy_rels_mono
    rw [mergeAuthorNode_rels]
    exact h

theorem add_paper_to_graph_rels_mono (p : Paper) {r : Rel}
    (h : s.rels r = true) : (add_paper_to_graph s p).1.rels r = true := by
  simp only [add_paper_to_graph]
  apply addVenuePart_rels_mono
  apply addAuthorsLoop_rels_mono
  rw [mergePaperNode_rels]
  exact h

end MonoLemmas

section ProcessLemmas

theorem initOk_elim {raw : RawPaper} (h : initOk raw = true) :
    ∃ p, Paper.init raw = .ok p := by
  unfold initOk at h
  split at h
  · exact ⟨_, by assumption⟩
  · exact absurd h (by simp)

theorem processOne_eq {origin : String} {op : Operation} {s : GraphState}
    {raw : RawPaper} {p : Paper} (hini : Paper.init raw = .ok p) :
    processOne origin op s raw =
      .ok ((edgeQuery op (add_paper_to_graph s p).1 origin p.id).1,
           (edgeQuery op (add_paper_to_graph s p).1 origin p.id).2.1,
           (edgeQuery op (add_paper_to_graph s p).1 origin p.id).2.2) := by
  simp only [processOne, hini]

theorem processOne_papers_mono {origin : String} {op : Operation}
    {s : GraphState} {raw : RawPaper} {r : GraphState × Nat × Nat}
    (hok : processOne origin op s raw = .ok r) {x : String}
    (h : (s.papers x).isSome = true) : (r.1.papers x).isSome = true := by
  unfold processOne at hok
  split at hok
  · cases hok
  · cases hok
  · rename_i p hini
    cases hok
    rw [edgeQuery_papers]
    exact add_paper_to_graph_papers_mono p h

theorem processOne_rels_mono {origin : String} {op : Operation}
    {s : GraphState} {raw : RawPaper} {r : GraphState × Nat × Nat}
    (hok : processOne origin op s raw = .ok r) {e : Rel}
    (h : s.rels e = true) : r.1.rels e = true := by
  unfold processOne at hok
  split at hok
  · cases hok
  · cases hok
  · rename_i p hini
    cases hok
    apply edgeQuery_rels_mono
    exact add_paper_to_graph_rels_mono p h

theorem processOne_edge {origin : String} {op : Operation} {s : GraphState}
    {raw : RawPaper} {p : Paper} (hini : Paper.init raw = .ok p)
    (ho : (s.papers origin).isSome = true) :
    ∀ {r : GraphState × Nat × Nat}, processOne origin op s raw = .ok r →
      r.1.rels (edgeRel op origin p.id) = true := by
  intro r hok
  rw [processOne_eq hini] at hok
  cases hok
  apply edgeQuery_rel_self
  · exact add_paper_to_graph_papers_mono p ho
  · exact add_paper_to_graph_papers_self s p ▸ rfl

theorem processList_papers_mono (origin : String) (op : Operation)
    (s : GraphState) (L : List RawPaper) {x : String}
    (h : (s.papers x).isSome = true) :
    ((processList origin op s L).state.papers x).isSome = true := by
  induction L generalizing s with
  | nil => exact h
  | cons raw rest ih =>
    show ((match processOne origin op s raw with
          | .error e => (⟨s, 0, 0, some e⟩ : RunOut)
          | .ok r => ⟨(processList origin op r.1 rest).state, _, _, _⟩
          ).state.papers x).isSome = true
    split
    · exact h
    · rename_i r hok
      exact ih _ (processOne_papers_mono hok h)

theorem processList_rels_mono (origin : String) (op : Operation)
    (s : GraphState) (L : List RawPaper) {e : Rel} (h : s.rels e = true) :
    (processList origin op s L).state.rels e = true := by
  induction L generalizing s with
  | nil => exact h
  | cons raw rest ih =>
    show ((match processOne origin op s raw with
          | .error e => (⟨s, 0, 0, some e⟩ : RunOut)
          | .ok r => ⟨(processList origin op r.1 rest).state, _, _, _⟩
          ).state.rels e) = true
    split
    · exact h
    · rename_i r hok
      exact ih _ (processOne_rels_mono hok h)

theorem processList_err_none (origin : String) (op : Operation)
    (s : GraphState) (L : List RawPaper)
    (hWF : ∀ raw ∈ L, initOk raw = true) :
    (processList origin op s L).err = none := by
  induction L generalizing s with
  | nil => rfl
  | cons raw rest ih =>
    rcases initOk_elim (hWF raw (List.mem_cons_self raw rest)) with ⟨p, hini⟩
    show (match processOne origin op s raw with
          | .error e => (⟨s, 0, 0, some e⟩ : RunOut)
          | .ok r => ⟨_, _, _, (processList origin op r.1 rest).err⟩).err = none
    rw [processOne_eq hini]
    exact ih _ fun b hb => hWF b (List.mem_cons_of_mem raw hb)

theorem processList_edge (origin : String) (op : Operation) (s : GraphState)
    (L : List RawPaper) (ho : (s.papers origin).isSome = true)
    (hWF : ∀ b ∈ L, initOk b = true)
    {raw : RawPaper} (hmem : raw ∈ L) {p : Paper}
    (hini : Paper.init raw = .ok p) :
    (processList origin op s L).state.rels (edgeRel op origin p.id) = true := by
  induction L generalizing s with
  | nil => cases hmem
  | cons b rest ih =>
    have hWFrest : ∀ c ∈ rest, initOk c = true :=
      fun c hc => hWF c (List.mem_cons_of_mem b hc)
    show (match processOne origin op s b with
          | .error e => (⟨s, 0, 0, some e⟩ : RunOut)
          | .ok r => ⟨(processList origin op r.1 rest).state, _, _, _⟩
          ).state.rels _ = true
    rcases List.mem_cons.mp hmem with hb | hb
    · subst hb
      rw [processOne_eq hini]
      show (processList origin op _ rest).state.rels _ = true
      apply processList_rels_mono
      show (edgeQuery op (add_paper_to_graph s p).1 origin p.id).1.rels _ = true
      apply edgeQuery_rel_self
      · exact add_paper_to_graph_papers_mono p ho
      · exact add_paper_to_graph_papers_self s p ▸ rfl
    · cases hok : processOne origin op s b with
      | error e =>
        rcases initOk_elim (hWF b (List.mem_cons_self b rest)) with ⟨q, hq⟩
        rw [processOne_eq hq] at hok
        exact absurd hok (by simp)
      | ok r =>
        exact ih _ (processOne_papers_mono hok ho) hWFrest hb

end ProcessLemmas

section ExpanderLemmas

theorem add_references_err_none (api : Operation → Nat → PageResponse RawPaper)
    (pid : String) (s : GraphState) (fuel : Nat) (hWF : pagesOk api fuel) :
    (add_references api pid s fuel).err = none := by
  have he1 := processList_err_none pid .citations s
    (fetch_pages (api .citations) 100 fuel 0).1 hWF.1
  simp only [add_references, he1]
  exact processList_err_none pid .references _ _ hWF.2

theorem add_references_papers_mono (api : Operation → Nat → PageResponse RawPaper)
    (pid : String) (s : GraphState) (fuel : Nat) {x : String}
    (h : (s.papers x).isSome = true) :
    ((add_references api pid s fuel).state.papers x).isSome = true := by
  simp only [add_references]
  split
  · exact processList_papers_mono _ _ _ _ h
  · show ((processList pid .references _ _).state.papers x).isSome = true
    exact processList_papers_mono _ _ _ _ (processList_papers_mono _ _ _ _ h)

theorem add_references_rels_mono (api : Operation → Nat → PageResponse RawPaper)
    (pid : String) (s : GraphState) (fuel : Nat) {e : Rel}
    (h : s.rels e = true) :
    (add_references api pid s fuel).state.rels e = true := by
  simp only [add_references]
  split
  · exact processList_rels_mono _ _ _ _ h
  · show (processList pid .references _ _).state.rels e = true
    exact processList_rels_mono _ _ _ _ (processList_rels_mono _ _ _ _ h)

theorem add_references_cit_edge (api : Operation → Nat → PageResponse RawPaper)
    (pid : String) (s : GraphState) (fuel : Nat)
    (ho : (s.papers pid).isSome = true) (hWF : pagesOk api fuel)
    {raw : RawPaper} (hmem : raw ∈ (fetch_pages (api .citations) 100 fuel 0).1)
    {p : Paper} (hini : Paper.init raw = .ok p) :
    (add_references api pid s fuel).state.rels ⟨.references, p.id, pid⟩ = true := by
  have he1 := processList_err_none pid .citations s
    (fetch_pages (api .citations) 100 fuel 0).1 hWF.1
  simp only [add_references, he1]
  show (processList pid .references _ _).state.rels _ = true
  apply processList_rels_mono
  exact processList_edge pid .citations s _ ho hWF.1 hmem hini

theorem add_references_ref_edge (api : Operation → Nat → PageResponse RawPaper)
    (pid : String) (s : GraphState) (fuel : Nat)
    (ho : (s.papers pid).isSome = true) (hWF : pagesOk api fuel)
    {raw : RawPaper} (hmem : raw ∈ (fetch_pages (api .references) 100 fuel 0).1)
    {p : Paper} (hini : Paper.init raw = .ok p) :
    (add_references api pid s fuel).state.rels ⟨.references, pid, p.id⟩ = true := by
  have he1 := processList_err_none pid .citations s
    (fetch_pages (api .citations) 100 fuel 0).1 hWF.1
  simp only [add_references, he1]
  show (processList pid .references _ _).state.rels _ = true
  exact processList_edge pid .references _ _
    (processList_papers_mono _ _ _ _ ho) hWF.2 hmem hini

end ExpanderLemmas

section BatchLemmas

theorem batchLoop_papers_mono (api : String → Operation → Nat → PageResponse RawPaper)
    (fuel : Nat) (s : GraphState) (ids : List String) {x : String}
    (h : (s.papers x).isSome = true) :
    ((batchLoop api fuel s ids).1.papers x).isSome = true := by
  induction ids generalizing s with
  | nil => exact h
  | cons pid rest ih =>
    show ((match (add_references (api pid) pid s fuel).err with
          | some e => ((add_references (api pid) pid s fuel).state, 0, some e)
          | none => ((batchLoop api fuel (add_references (api pid) pid s fuel).state rest).1, _, _)
          ).1.papers x).isSome = true
    split
    · exact add_references_papers_mono _ _ _ _ h
    · exact ih _ (add_references_papers_mono _ _ _ _ h)

theorem batchLoop_rels_mono (api : String → Operation → Nat → PageResponse RawPaper)
    (fuel : Nat) (s : GraphState) (ids : List String) {e : Rel}
    (h : s.rels e = true) :
    (batchLoop api fuel s ids).1.rels e = true := by
  induction ids generalizing s with
  | nil => exact h
  | cons pid rest ih =>
    show ((match (add_references (api pid) pid s fuel).err with
          | some e => ((add_references (api pid) pid s fuel).state, 0, some e)
          | none => ((batchLoop api fuel (add_references (api pid) pid s fuel).state rest).1, _, _)
          ).1.rels e) = true
    split
    · exact add_references_rels_mono _ _ _ _ h
    · exact ih _ (add_references_rels_mono _ _ _ _ h)

theorem batchLoop_complete (api : String → Operation → Nat → PageResponse RawPaper)
    (fuel : Nat) (s : GraphState) (ids : List String)
    (hWF : ∀ pid ∈ ids, pagesOk (api pid) fuel) :
    (batchLoop api fuel s ids).2.1 = ids.length ∧
      (batchLoop api fuel s ids).2.2 = none := by
  induction ids generalizing s with
  | nil => exact ⟨rfl, rfl⟩
  | cons pid rest ih =>
    have he : (add_references (api pid) pid s fuel).err = none :=
      add_references_err_none _ _ _ _ (hWF pid (List.mem_cons_self pid rest))
    have ihr := ih ((add_references (api pid) pid s fuel).state)
      (fun q hq => hWF q (List.mem_cons_of_mem pid hq))
    have hb : batchLoop api fuel s (pid :: rest) =
        ((batchLoop api fuel (add_references (api pid) pid s fuel).state rest).1,
         (batchLoop api fuel (add_references (api pid) pid s fuel).state rest).2.1 + 1,
         (batchLoop api fuel (add_references (api pid) pid s fuel).state rest).2.2) := by
      simp only [batchLoop, he]
    rw [hb]
    exact ⟨by rw [ihr.1]; rfl, ihr.2⟩

theorem batchLoop_edge (api : String → Operation → Nat → PageResponse RawPaper)
    (fuel : Nat) (s : GraphState) (ids : List String)
    (hWF : ∀ pid ∈ ids, pagesOk (api pid) fuel)
    (hids : ∀ pid ∈ ids, (s.papers pid).isSome = true)
    {k : String} (hk : k ∈ ids) {raw : RawPaper}
    (hmem : raw ∈ (fetch_pages (api k .citations) 100 fuel 0).1)
    {p : Paper} (hini : Paper.init raw = .ok p) :
    (batchLoop api fuel s ids).1.rels ⟨.references, p.id, k⟩ = true := by
  induction ids generalizing s with
  | nil => cases hk
  | cons pid rest ih =>
    have he : (add_references (api pid) pid s fuel).err = none :=
      add_references_err_none _ _ _ _ (hWF pid (List.mem_cons_self pid rest))
    show ((match (add_references (api pid) pid s fuel).err with
          | some e => ((add_references (api pid) pid s fuel).state, 0, some e)
          | none => ((batchLoop api fuel (add_references (api pid) pid s fuel).state rest).1, _, _)
          ).1.rels _) = true
    rw [he]
    rcases List.mem_cons.mp hk with hkk | hkk
    · subst hkk
      apply batchLoop_rels_mono
      exact add_references_cit_edge _ _ _ _
        (hids k (List.mem_cons_self k rest))
        (hWF k (List.mem_cons_self k rest)) hmem hini
    · exact ih _ (fun q hq => hWF q (List.mem_cons_of_mem pid hq))
        (fun q hq => add_references_papers_mono _ _ _ _
          (hids q (List.mem_cons_of_mem pid hq))) hkk

end BatchLemmas

section PaginationLemmas

theorem fetch_pages_succ {α : Type} (api : Nat → PageResponse α)
    (ps fuel offset : Nat) :
    fetch_pages api ps (fuel + 1) offset =
      if (api offset).status ≠ 200 then ([], [offset])
      else if (api offset).hasNext then
        ((api offset).data ++ (fetch_pages api ps fuel (offset + ps)).1,
         offset :: (fetch_pages api ps fuel (offset + ps)).2)
      else ((api offset).data, [offset]) := rfl

theorem offsetsSpec_succ (ps len fuel offset : Nat) :
    offsetsSpec ps len (fuel + 1) offset =
      if offset + ps < len then
        offset :: offsetsSpec ps len fuel (offset + ps)
      else [offset] := rfl

theorem honestApi_status {α : Type} (records : List α) (ps offset : Nat) :
    (honestApi records ps offset).status = 200 := rfl

theorem honestApi_data {α : Type} (records : List α) (ps offset : Nat) :
    (honestApi records ps offset).data = (records.drop offset).take ps := rfl

theorem honestApi_hasNext {α : Type} (records : List α) (ps offset : Nat) :
    (honestApi records ps offset).hasNext
      = decide (offset + ps < records.length) := rfl

theorem fetch_pages_honest {α : Type} (records : List α) (ps : Nat)
    (hps : 0 < ps) :
    ∀ (fuel offset : Nat), records.length ≤ offset + fuel * ps →
      fetch_pages (honestApi records ps) ps (fuel + 1) offset =
        (records.drop offset, offsetsSpec ps records.length (fuel + 1) offset) := by
  intro fuel
  induction fuel with
  | zero =>
    intro offset hlen
    rw [Nat.zero_mul, Nat.add_zero] at hlen
    have hdrop : records.drop offset = [] := List.drop_eq_nil_of_le hlen
    have hnext : ¬ offset + ps < records.length := by omega
    rw [fetch_pages_succ, offsetsSpec_succ,
      if_neg (by rw [honestApi_status]; simp),
      if_neg (by rw [honestApi_hasNext]; simpa using hnext), if_neg hnext,
      honestApi_data, hdrop]
    simp
  | succ fuel ih =>
    intro offset hlen
    rw [Nat.succ_mul] at hlen
    rw [fetch_pages_succ, offsetsSpec_succ,
      if_neg (by rw [honestApi_status]; simp)]
    by_cases hnext : offset + ps < records.length
    · rw [if_pos (by rw [honestApi_hasNext]; simpa using hnext), if_pos hnext]
      have hlen2 : records.length ≤ (offset + ps) + fuel * ps := by omega
      rw [ih (offset + ps) hlen2, honestApi_data]
      have hdd : records.drop (offset + ps) = (records.drop offset).drop ps := by
        rw [List.drop_drop, Nat.add_comm]
      show ((records.drop offset).take ps ++ records.drop (offset + ps), _) = _
      rw [hdd, List.take_append_drop]
    · rw [if_neg (by rw [honestApi_hasNext]; simpa using hnext), if_neg hnext,
        honestApi_data]
      have htake : (records.drop offset).take ps = records.drop offset := by
        apply List.take_of_length_le
        rw [List.length_drop]
        omega
      rw [htake]

theorem fetch_pages_offsets_lb {α : Type} (api : Nat → PageResponse α)
    (ps : Nat) :
    ∀ (fuel offset : Nat), ∀ o ∈ (fetch_pages api ps fuel offset).2,
      offset ≤ o := by
  intro fuel
  induction fuel with
  | zero => intro offset o ho; cases ho
  | succ fuel ih =>
    intro offset o ho
    rw [fetch_pages_succ] at ho
    by_cases hstat : (api offset).status = 200
    · rw [if_neg (by simp [hstat])] at ho
      by_cases hnx : (api offset).hasNext = true
      · rw [if_pos hnx] at ho
        rcases List.mem_cons.mp ho with rfl | hrest
        · exact Nat.le_refl _
        · have := ih (offset + ps) o hrest
          omega
      · rw [if_neg hnx] at ho
        rcases List.mem_singleton.mp ho with rfl
        exact Nat.le_refl _
    · rw [if_pos hstat] at ho
      rcases List.mem_singleton.mp ho with rfl
      exact Nat.le_refl _

theorem fetch_pages_offsets_sorted {α : Type} (api : Nat → PageResponse α)
    (ps : Nat) (hps : 0 < ps) :
    ∀ (fuel offset : Nat),
      (fetch_pages api ps fuel offset).2.Pairwise (· < ·) := by
  intro fuel
  induction fuel with
  | zero => intro offset; exact List.Pairwise.nil
  | succ fuel ih =>
    intro offset
    rw [fetch_pages_succ]
    by_cases hstat : (api offset).status = 200
    · rw [if_neg (by simp [hstat])]
      by_cases hnx : (api offset).hasNext = true
      · rw [if_pos hnx]
        refine List.Pairwise.cons ?_ (ih (offset + ps))
        intro o ho
        have := fetch_pages_offsets_lb api ps fuel (offset + ps) o ho
        omega
      · rw [if_neg hnx]
        simp
    · rw [if_pos hstat]
      simp

theorem fetch_pages_error_stops {α : Type} (api : Nat → PageResponse α)
    (ps : Nat) :
    ∀ (fuel offset : Nat), ∀ o ∈ (fetch_pages api ps fuel offset).2,
      (api o).status ≠ 200 →
        ∀ o2 ∈ (fetch_pages api ps fuel offset).2, o2 ≤ o := by
  intro fuel
  induction fuel with
  | zero => intro offset o ho; cases ho
  | succ fuel ih =>
    intro offset o ho herr o2 ho2
    rw [fetch_pages_succ] at ho ho2
    by_cases hstat : (api offset).status = 200
    · rw [if_neg (by simp [hstat])] at ho ho2
      by_cases hnx : (api offset).hasNext = true
      · rw [if_pos hnx] at ho ho2
        rcases List.mem_cons.mp ho with rfl | hrest
        · exact absurd hstat herr
        · rcases List.mem_cons.mp ho2 with rfl | hrest2
          · have := fetch_pages_offsets_lb api ps fuel (o2 + ps) o hrest
            omega
          · exact ih (offset + ps) o hrest herr o2 hrest2
      · rw [if_neg hnx] at ho ho2
        rcases List.mem_singleton.mp ho with rfl
        rcases List.mem_singleton.mp ho2 with rfl
        exact Nat.le_refl _
    · rw [if_pos hstat] at ho ho2
      rcases List.mem_singleton.mp ho with rfl
      rcases List.mem_singleton.mp ho2 with rfl
      exact Nat.le_refl _

end PaginationLemmas

section RetryLemmas

theorem pow_shift_list (i k : Nat) :
    2 ^ i :: ((List.range k).map fun j => 2 ^ (i + 1 + j)) =
      (List.range (k + 1)).map fun j => 2 ^ (i + j) := by
  simp only [List.range_succ_eq_map, List.map_cons, List.map_map,
    Function.comp_def, Nat.succ_eq_add_one, Nat.add_zero, List.cons.injEq,
    true_and]
  apply List.map_congr_left
  intro j hj
  congr 1
  omega

theorem backoffRetry_none_step {α : Type} (f : Nat → Option α) (b i : Nat)
    (hf : f i = none) (hb : b ≠ 0) :
    backoffRetry f (b + 1) i =
      ((backoffRetry f b (i + 1)).1, (backoffRetry f b (i + 1)).2.1 + 1,
       2 ^ i :: (backoffRetry f b (i + 1)).2.2) := by
  simp only [backoffRetry, hf, if_neg hb]

theorem backoffRetry_success {α : Type} (f : Nat → Option α) (a : α) :
    ∀ (k budget i : Nat), k < budget →
      (∀ j, j < k → f (i + j) = none) → f (i + k) = some a →
        backoffRetry f budget i =
          (some a, k + 1, (List.range k).map fun j => 2 ^ (i + j)) := by
  intro k
  induction k with
  | zero =>
    intro budget i hk hfail hsucc
    obtain ⟨b, rfl⟩ : ∃ b, budget = b + 1 :=
      ⟨budget - 1, by omega⟩
    rw [Nat.add_zero] at hsucc
    simp [backoffRetry, hsucc]
  | succ k ih =>
    intro budget i hk hfail hsucc
    obtain ⟨b, rfl⟩ : ∃ b, budget = b + 1 := ⟨budget - 1, by omega⟩
    have hf0 : f i = none := by
      have := hfail 0 (Nat.succ_pos k)
      rwa [Nat.add_zero] at this
    have hb : b ≠ 0 := by omega
    have ihr := ih b (i + 1) (by omega)
      (fun j hj => by
        have := hfail (j + 1) (by omega)
        rwa [show i + (j + 1) = i + 1 + j by omega] at this)
      (by rwa [show i + 1 + k = i + (k + 1) by omega])
    rw [backoffRetry_none_step f b i hf0 hb, ihr]
    show (some a, k + 1 + 1,
      2 ^ i :: (List.range k).map fun j => 2 ^ (i + 1 + j)) = _
    rw [pow_shift_list]

theorem backoffRetry_exhaust {α : Type} (f : Nat → Option α) :
    ∀ (budget i : Nat), 0 < budget → (∀ j, j < budget → f (i + j) = none) →
      backoffRetry f budget i =
        (none, budget, (List.range (budget - 1)).map fun j => 2 ^ (i + j)) := by
  intro budget
  induction budget with
  | zero => intro i h; omega
  | succ b ih =>
    intro i hpos hfail
    have hf0 : f i = none := by
      have := hfail 0 (Nat.succ_pos b)
      rwa [Nat.add_zero] at this
    cases b with
    | zero => simp [backoffRetry, hf0]
    | succ b2 =>
      have ihr := ih (i + 1) (Nat.succ_pos b2)
        (fun j hj => by
          have := hfail (j + 1) (by omega)
          rwa [show i + (j + 1) = i + 1 + j by omega] at this)
      rw [backoffRetry_none_step f (b2 + 1) i hf0 (Nat.succ_ne_zero b2), ihr]
      show (none, b2 + 1 + 1,
        2 ^ i :: (List.range (b2 + 1 - 1)).map fun j => 2 ^ (i + 1 + j)) = _
      rw [Nat.add_sub_cancel, Nat.add_sub_cancel, pow_shift_list]

end RetryLemmas

section LimiterLemmas

theorem runCalls_fresh_admits (k : Nat) :
    ∀ c : Nat, c + k ≤ 5000 →
      (runCalls 5000 60 ⟨c, 0⟩ (List.replicate k 0)).2 = k := by
  induction k with
  | zero => intro c _; rfl
  | succ k ih =>
    intro c hc
    show (if (limiterCall 5000 60 ⟨c, 0⟩ 0).2 then 1 else 0) +
      (runCalls 5000 60 (limiterCall 5000 60 ⟨c, 0⟩ 0).1 (List.replicate k 0)).2
        = k + 1
    have hcall : limiterCall 5000 60 ⟨c, 0⟩ 0 = (⟨c + 1, 0⟩, true) := by
      simp only [limiterCall]
      rw [if_neg (by omega), Prod.mk.injEq]
      refine ⟨rfl, ?_⟩
      simp only [decide_eq_true_eq]
      omega
    rw [hcall]
    show 1 + (runCalls 5000 60 ⟨c + 1, 0⟩ (List.replicate k 0)).2 = k + 1
    rw [ih (c + 1) (by omega)]
    omega

theorem runCalls_window_bound (ts : List Nat) (h : ∀ t ∈ ts, t < 60) :
    ∀ c : Nat, (runCalls 5000 60 ⟨c, 0⟩ ts).2 ≤ 5000 - c := by
  induction ts with
  | nil => intro c; exact Nat.zero_le _
  | cons t ts ih =>
    intro c
    have ht : t < 60 := h t (List.mem_cons_self t ts)
    have hrest := ih (fun u hu => h u (List.mem_cons_of_mem t hu))
    show (if (limiterCall 5000 60 ⟨c, 0⟩ t).2 then 1 else 0) +
      (runCalls 5000 60 (limiterCall 5000 60 ⟨c, 0⟩ t).1 ts).2 ≤ 5000 - c
    have hcall : limiterCall 5000 60 ⟨c, 0⟩ t =
        (⟨c + 1, 0⟩, decide (c + 1 ≤ 5000)) := by
      simp only [limiterCall]
      rw [if_neg (by omega)]
    rw [hcall]
    show (if decide (c + 1 ≤ 5000) = true then 1 else 0) +
      (runCalls 5000 60 ⟨c + 1, 0⟩ ts).2 ≤ 5000 - c
    have := hrest (c + 1)
    by_cases hce : c + 1 ≤ 5000
    · rw [if_pos (by simpa using hce)]
      omega
    · rw [if_neg (by simpa using hce)]
      omega

end LimiterLemmas

/-! ## Claims -/

/-- C1: whenever `Paper.__init__` produces a usable entity from a raw
record, the entity's `id` is the provider's `paperId` when that field is
present and non-null, and otherwise the SHA-1 hex digest of the escaped
title concatenated with the escaped primary author; normalization is a
pure function of the raw record, so re-normalizing the same record
yields the same id. -/
theorem claim_c1_identity (r : RawPaper) (p : Paper)
    (h : Paper.init r = .ok p) :
    p.id = (match r.paperId with
            | some pid => pid
            | none => sha1Hex (p.title ++ p.author)) ∧
    ∀ q : Paper, Paper.init r = .ok q → q.id = p.id := by
  refine ⟨?_, fun q hq => by rw [h] at hq; cases hq; rfl⟩
  simp only [Paper.init] at h
  split at h
  · exact InitResult.noConfusion h
  · split at h
    · exact InitResult.noConfusion h
    · split at h
      · exact InitResult.noConfusion h
      · cases h
        cases hp : r.paperId with
        | none => simp [hp]
        | some pid => simp [hp]

/-- Witness for C1 at the concrete record `c1raw`. -/
theorem claim_c1_identity_witness :
    Paper.init c1raw = .ok c1paper ∧ c1paper.id = "PID" :=
  ⟨by decide, (claim_c1_identity c1raw c1paper (by decide)).1⟩

/-- C2: upserting a paper twice leaves the graph in the state of the
first upsert and the second call reports zero nodes and zero
relationships created; likewise for the REFERENCES edge upsert between
two papers that exist in the graph. -/
theorem claim_c2_idempotence :
    (∀ (s : GraphState) (p : Paper),
      add_paper_to_graph (add_paper_to_graph s p).1 p =
        ((add_paper_to_graph s p).1, 0, 0)) ∧
    (∀ (s : GraphState) (a b : String),
      (s.papers a).isSome = true → (s.papers b).isSome = true →
        mergeReferences (mergeReferences s a b).1 a b =
          ((mergeReferences s a b).1, 0, 0)) :=
  ⟨add_paper_to_graph_idem, mergeReferences_idem⟩

/-- Witness for C2 on a concrete state and paper. -/
theorem claim_c2_idempotence_witness :
    ((exState.papers "A").isSome = true ∧ (exState.papers "B").isSome = true) ∧
    mergeReferences (mergeReferences exState "A" "B").1 "A" "B" =
      ((mergeReferences exState "A" "B").1, 0, 0) ∧
    add_paper_to_graph (add_paper_to_graph exState exPaper).1 exPaper =
      ((add_paper_to_graph exState exPaper).1, 0, 0) :=
  ⟨⟨by decide, by decide⟩,
   claim_c2_idempotence.2 exState "A" "B" (by decide) (by decide),
   claim_c2_idempotence.1 exState exPaper⟩

/-- C3: after expanding a paper's neighborhood, every citing neighbor
that was fetched and normalized has a stored REFERENCES edge from the
neighbor to the origin, and every cited neighbor an edge from the origin
to the neighbor; both conclusions use the one relationship constructor
`RelType.references`, never two distinct types. -/
theorem claim_c3_edge_direction (api : Operation → Nat → PageResponse RawPaper)
    (origin : String) (s : GraphState) (fuel : Nat)
    (ho : (s.papers origin).isSome = true) (hWF : pagesOk api fuel) :
    (∀ raw ∈ (fetch_pages (api .citations) 100 fuel 0).1, ∀ p : Paper,
      Paper.init raw = .ok p →
        (add_references api origin s fuel).state.rels
          ⟨.references, p.id, origin⟩ = true) ∧
    (∀ raw ∈ (fetch_pages (api .references) 100 fuel 0).1, ∀ p : Paper,
      Paper.init raw = .ok p →
        (add_references api origin s fuel).state.rels
          ⟨.references, origin, p.id⟩ = true) :=
  ⟨fun _ hmem _ hini => add_references_cit_edge api origin s fuel ho hWF hmem hini,
   fun _ hmem _ hini => add_references_ref_edge api origin s fuel ho hWF hmem hini⟩

/-- Witness for C3: expanding `A` against `c3api` stores `B → A` for the
citing neighbor `B` and `A → D` for the cited neighbor `D`. -/
theorem claim_c3_edge_direction_witness :
    ((c3state.papers "A").isSome = true ∧ pagesOk c3api 1) ∧
    (add_references c3api "A" c3state 1).state.rels
      ⟨.references, "B", "A"⟩ = true ∧
    (add_references c3api "A" c3state 1).state.rels
      ⟨.references, "A", "D"⟩ = true :=
  ⟨⟨by decide, by decide⟩,
   (claim_c3_edge_direction c3api "A" c3state 1 (by decide) (by decide)).1
     c3rawB (by decide) c3paperB (by decide),
   (claim_c3_edge_direction c3api "A" c3state 1 (by decide) (by decide)).2
     c3rawD (by decide) c3paperD (by decide)⟩

/-- C4: a raw record whose title is absent or null is rejected by the
normalizer (the early `return` leaves no usable entity), and processing
such a record performs no graph write: the attempt fails before any
query with the `AttributeError` that `paper.id` raises downstream. -/
theorem claim_c4_rejection (r : RawPaper) (h : r.title = none) :
    Paper.init r = .rejected ∧
    ∀ (origin : String) (op : Operation) (s : GraphState),
      processOne origin op s r = .error .attributeError := by
  constructor
  · simp [Paper.init, h]
  · intro origin op s
    simp [processOne, Paper.init, h]

/-- Witness for C4 at the concrete record `c4raw`. -/
theorem claim_c4_rejection_witness :
    c4raw.title = none ∧ Paper.init c4raw = .rejected ∧
    processOne "A" .citations emptyState c4raw = .error .attributeError :=
  ⟨rfl, (claim_c4_rejection c4raw rfl).1,
   (claim_c4_rejection c4raw rfl).2 "A" .citations emptyState⟩

/-- C5: against a well-behaved provider, the pagination loop starting at
offset 0 returns every provider record exactly once in provider order
(the concatenation equals the provider's record list) and issues its
requests at exactly the offsets `0, ps, 2·ps, ...` predicted by
`offsetsSpec`, stopping at the first page whose next-page indicator is
absent. -/
theorem claim_c5_pagination {α : Type} (records : List α) (ps fuel : Nat)
    (hps : 0 < ps) (hlen : records.length ≤ fuel * ps) :
    fetch_pages (honestApi records ps) ps (fuel + 1) 0 =
      (records, offsetsSpec ps records.length (fuel + 1) 0) := by
  have h := fetch_pages_honest records ps hps fuel 0 (by omega)
  rwa [List.drop_zero] at h

/-- Witness for C5, the spec's worked example: 25 records with page size
10 are fetched in exactly 3 requests at offsets 0, 10, 20, and the
result is the full record list in order. -/
theorem claim_c5_pagination_witness :
    ((0 : Nat) < 10 ∧ (List.range 25).length ≤ 3 * 10) ∧
    fetch_pages (honestApi (List.range 25) 10) 10 4 0 =
      (List.range 25, [0, 10, 20]) := by
  refine ⟨⟨by decide, by decide⟩, ?_⟩
  rw [claim_c5_pagination (List.range 25) 10 3 (by decide) (by decide)]
  decide

/-- C6 counterexample: against `c6api`, the second citations request
(offset 100) is rejected with HTTP 500, yet `add_references` returns
with no error for its caller and the record fetched before the error is
still processed into the graph (the edge `B6 → A6` is stored) — the call
silently continues with partial results instead of surfacing the
error. -/
theorem claim_c6_counterexample :
    (c6api .citations 100).status = 500 ∧
    100 ∈ (fetch_pages (c6api .citations) 100 3 0).2 ∧
    (add_references c6api "A6" c6state 3).err = none ∧
    (add_references c6api "A6" c6state 3).state.rels
      ⟨.references, "B6", "A6"⟩ = true := by
  decide

/-- C6 amended: on a non-rate-limit HTTP error the pagination loop stops
at the erroring offset (no later offset is ever requested), no offset is
requested twice (no retry), but the error is not surfaced to the caller:
with well-formed payloads `add_references` completes with `err = none`,
and the records fetched before the error are still processed (their
edges are stored). -/
theorem claim_c6_amended (api : Operation → Nat → PageResponse RawPaper)
    (pid : String) (s : GraphState) (fuel : Nat)
    (ho : (s.papers pid).isSome = true) (hWF : pagesOk api fuel) :
    (∀ o ∈ (fetch_pages (api .citations) 100 fuel 0).2,
      (api .citations o).status ≠ 200 →
        ∀ o2 ∈ (fetch_pages (api .citations) 100 fuel 0).2, o2 ≤ o) ∧
    (fetch_pages (api .citations) 100 fuel 0).2.Pairwise (· < ·) ∧
    (add_references api pid s fuel).err = none ∧
    (∀ raw ∈ (fetch_pages (api .citations) 100 fuel 0).1, ∀ p : Paper,
      Paper.init raw = .ok p →
        (add_references api pid s fuel).state.rels
          ⟨.references, p.id, pid⟩ = true) :=
  ⟨fun o ho2 herr => fetch_pages_error_stops _ 100 fuel 0 o ho2 herr,
   fetch_pages_offsets_sorted _ 100 (by omega) fuel 0,
   add_references_err_none api pid s fuel hWF,
   fun _ hmem _ hini => add_references_cit_edge api pid s fuel ho hWF hmem hini⟩

/-- Witness for the amended C6 on the concrete erroring API. -/
theorem claim_c6_amended_witness :
    ((c6state.papers "A6").isSome = true ∧ pagesOk c6api 3) ∧
    (add_references c6api "A6" c6state 3).err = none :=
  ⟨⟨by decide, by decide⟩,
   (claim_c6_amended c6api "A6" c6state 3 (by decide) (by decide)).2.2.1⟩

/-- C7 (code bug): per the spec every optional field is independently
defaulted, so a record lacking `authors` should normalize with primary
author `"unknown"` without raising — the guard on line 75 of the source
indeed defaults the primary author for that very case — but the
unconditional `paper_dict["authors"]` on line 82 raises `KeyError`, so
normalization of `c7raw` raises instead of succeeding.  The second
conjunct checks the intact default paths (with an `authors` key
present): missing `year`, `venue`, `abstract`, `url` default to `0`,
`""`, `""`, `""`. -/
theorem claim_c7_missing_authors_raises :
    Paper.init c7raw = .raised ∧
    Paper.init c7defaults =
      .ok ⟨"T7", "unknown", [], "P7", 0, "", "", "", 0, 0, ""⟩ := by
  decide

/-- C8: the bulk refresh dispatches one expansion task per discovered
paper identity — the outcome is independent of the worker-pool size
argument, and with well-formed payloads the completed-task count equals
the number of identities even when some tasks' requests are rejected
with permanent HTTP errors (an erroring task prints and completes, it
does not raise) — and the other tasks' results remain intact: every
successfully fetched citing neighbor of any task still has its edge in
the final graph. -/
theorem claim_c8_bulk_refresh
    (api : String → Operation → Nat → PageResponse RawPaper)
    (fuel : Nat) (s : GraphState) (ids : List String) (n1 n2 : Nat)
    (hWF : ∀ pid ∈ ids, pagesOk (api pid) fuel)
    (hids : ∀ pid ∈ ids, (s.papers pid).isSome = true) :
    search_semantic_refresh_references n1 api fuel s ids =
      search_semantic_refresh_references n2 api fuel s ids ∧
    (search_semantic_refresh_references 10 api fuel s ids).2.1 = ids.length ∧
    (search_semantic_refresh_references 10 api fuel s ids).2.2 = none ∧
    (∀ k ∈ ids, ∀ raw ∈ (fetch_pages (api k .citations) 100 fuel 0).1,
      ∀ p : Paper, Paper.init raw = .ok p →
        (search_semantic_refresh_references 10 api fuel s ids).1.rels
          ⟨.references, p.id, k⟩ = true) :=
  ⟨rfl, (batchLoop_complete api fuel s ids hWF).1,
   (batchLoop_complete api fuel s ids hWF).2,
   fun _ hk _ hmem _ hini =>
     batchLoop_edge api fuel s ids hWF hids hk hmem hini⟩

/-- Witness for C8: three identities, the middle one permanently failing
with HTTP 500, still give three completed tasks, a pool-size-independent
outcome, and the intact edge from the first task. -/
theorem claim_c8_bulk_refresh_witness :
    ((∀ pid ∈ ["P1", "P2", "P3"], pagesOk (c8api pid) 1) ∧
     (∀ pid ∈ ["P1", "P2", "P3"], (c8state.papers pid).isSome = true)) ∧
    (search_semantic_refresh_references 10 c8api 1 c8state
      ["P1", "P2", "P3"]).2.1 = 3 ∧
    search_semantic_refresh_references 4 c8api 1 c8state ["P1", "P2", "P3"] =
      search_semantic_refresh_references 10 c8api 1 c8state ["P1", "P2", "P3"] ∧
    (search_semantic_refresh_references 10 c8api 1 c8state
      ["P1", "P2", "P3"]).1.rels ⟨.references, "B", "P1"⟩ = true :=
  ⟨⟨by decide, by decide⟩,
   (claim_c8_bulk_refresh c8api 1 c8state ["P1", "P2", "P3"] 4 10
     (by decide) (by decide)).2.1,
   (claim_c8_bulk_refresh c8api 1 c8state ["P1", "P2", "P3"] 4 10
     (by decide) (by decide)).1,
   (claim_c8_bulk_refresh c8api 1 c8state ["P1", "P2", "P3"] 4 10
     (by decide) (by decide)).2.2.2 "P1" (by decide) c3rawB (by decide)
     c3paperB (by decide)⟩

/-- C9: the retry combinator embedding
`@on_exception(expo, RateLimitException, max_tries=8)` retries on a
rate-limit rejection with the base-2 exponential backoff series, is
capped at 8 calls in total, returns the first success, and after the
budget is exhausted propagates the rate-limit failure to the caller. -/
theorem claim_c9_retry {α : Type} (f : Nat → Option α) :
    (∀ (k : Nat) (a : α), k < 8 → (∀ j, j < k → f j = none) →
      f k = some a →
        on_exception_expo f = (some a, k + 1, (List.range k).map fun j => 2 ^ j)) ∧
    ((∀ j, j < 8 → f j = none) →
      on_exception_expo f = (none, 8, (List.range 7).map fun j => 2 ^ j)) := by
  constructor
  · intro k a hk hfail hsucc
    have h := backoffRetry_success f a k 8 0 hk
      (fun j hj => by simpa using hfail j hj) (by simpa using hsucc)
    simpa [on_exception_expo] using h
  · intro hfail
    have h := backoffRetry_exhaust f 8 0 (by omega)
      (fun j hj => by simpa using hfail j hj)
    simpa [on_exception_expo] using h

/-- Witness for C9: two rate-limit rejections then a success give a
result after 3 calls with waits 1, 2; eight rejections exhaust the
budget and the failure propagates. -/
theorem claim_c9_retry_witness :
    ((2 : Nat) < 8 ∧
     (∀ j, j < 2 → (fun i => if i < 2 then (none : Option Nat) else some 42) j
        = none) ∧
     (fun i => if i < 2 then (none : Option Nat) else some 42) 2 = some 42) ∧
    on_exception_expo (fun i => if i < 2 then (none : Option Nat) else some 42)
      = (some 42, 3, [1, 2]) ∧
    on_exception_expo (fun _ : Nat => (none : Option Nat))
      = (none, 8, [1, 2, 4, 8, 16, 32, 64]) := by
  refine ⟨⟨by decide, by decide, by decide⟩, ?_, ?_⟩
  · rw [(claim_c9_retry _).1 2 42 (by decide) (by decide) (by decide)]
    decide
  · rw [(claim_c9_retry _).2 (fun j _ => rfl)]
    decide

/-- C10 counterexample: the limiter state lives in each worker process's
own decorator instance, so two workers that each make 5000 calls at time
0 — within one 60-second window — are all admitted: the aggregate over
the pool is 10000 admitted calls in the window, refuting the claim that
the system never admits more than 5000 rate-limited calls per window
across all workers. -/
theorem claim_c10_counterexample :
    5000 < poolAdmitted [List.replicate 5000 0, List.replicate 5000 0] := by
  have h1 : (runCalls 5000 60 ⟨0, 0⟩ (List.replicate 5000 0)).2 = 5000 :=
    runCalls_fresh_admits 5000 0 (by omega)
  unfold poolAdmitted
  simp only [List.map_cons, List.map_nil, List.sum_cons, List.sum_nil]
  rw [h1]
  omega

/-- C10 amended: the quota is enforced per worker process, not across
the pool: within one 60-second window each worker admits at most 5000
calls, so the pool aggregate is bounded by `poolSize * 5000` rather than
5000. -/
theorem claim_c10_amended (schedules : List (List Nat))
    (h : ∀ ts ∈ schedules, ∀ t ∈ ts, t < 60) :
    (∀ ts ∈ schedules, (runCalls 5000 60 ⟨0, 0⟩ ts).2 ≤ 5000) ∧
    poolAdmitted schedules ≤ schedules.length * 5000 := by
  refine ⟨fun ts hts => ?_, ?_⟩
  · have := runCalls_window_bound ts (h ts hts) 0
    omega
  · induction schedules with
    | nil => simp [poolAdmitted]
    | cons ts rest ih =>
      have h1 : (runCalls 5000 60 ⟨0, 0⟩ ts).2 ≤ 5000 := by
        have := runCalls_window_bound ts
          (h ts (List.mem_cons_self ts rest)) 0
        omega
      have h2 := ih fun u hu t ht => h u (List.mem_cons_of_mem ts hu) t ht
      simp only [poolAdmitted, List.map_cons, List.sum_cons,
        List.length_cons] at *
      have h3 : (rest.length + 1) * 5000 = rest.length * 5000 + 5000 := by
        ring
      omega

/-- Witness for the amended C10 with two workers inside one window. -/
theorem claim_c10_amended_witness :
    (∀ ts ∈ [[0], [1, 2]], ∀ t ∈ ts, t < 60) ∧
    poolAdmitted [[0], [1, 2]] ≤ 2 * 5000 :=
  ⟨by decide, (claim_c10_amended [[0], [1, 2]] (by decide)).2⟩

end RTK
